import Mathlib

/-!
Verification development for the slot lifecycle engine (app.py).

The engine is shallowly embedded: the document store is modelled as the
already-parsed data the HTTP reads would return, timestamps as seconds
(Int) of a single fixed civil calendar (IST has a fixed offset and no
DST, so intra-zone comparisons and arithmetic are exactly civil-second
arithmetic), and each run as a pure function from the store snapshot and
the sampled instants to the resulting store plus observable flags.
Uncaught Python exceptions (ValueError from int(), OverflowError from
datetime arithmetic past year 9999) are modelled explicitly as a crash
flag / Option results.
-/

namespace SlotService

/-- A civil date-time, mirroring a naive Python datetime (seconds precision). -/
structure DateTime where
  year : Nat
  month : Nat
  day : Nat
  hour : Nat
  minute : Nat
  second : Nat
deriving DecidableEq, Repr

/-- Gregorian leap-year rule (datetime module rule). -/
def isLeap (y : Nat) : Bool :=
  y % 4 = 0 && (y % 100 != 0 || y % 400 = 0)

/-- Number of days of month m in year y (datetime module rule). -/
def daysInMonth (y m : Nat) : Nat :=
  if m = 2 then (if isLeap y then 29 else 28)
  else if m = 4 || m = 6 || m = 9 || m = 11 then 30
  else 31

/-- Days since 1970-01-01 of a civil date (Gregorian, y >= 1). -/
def daysFromCivil (y m d : Nat) : Int :=
  let yy : Nat := if m ≤ 2 then y - 1 else y
  let era : Nat := yy / 400
  let yoe : Nat := yy % 400
  let mp : Nat := if m > 2 then m - 3 else m + 9
  let doy : Nat := (153 * mp + 2) / 5 + d - 1
  let doe : Nat := yoe * 365 + yoe / 4 - yoe / 100 + doy
  (era * 146097 + doe : Int) - 719468

/-- Civil date of a day count since 1970-01-01 (inverse of daysFromCivil
on the supported range). -/
def civilFromDays (z : Int) : Nat × Nat × Nat :=
  let z' : Nat := (z + 719468).toNat
  let era : Nat := z' / 146097
  let doe : Nat := z' % 146097
  let yoe : Nat := (doe - doe / 1460 + doe / 36524 - doe / 146096) / 365
  let y : Nat := yoe + era * 400
  let doy : Nat := doe - (365 * yoe + yoe / 4 - yoe / 100)
  let mp : Nat := (5 * doy + 2) / 153
  let d : Nat := doy - (153 * mp + 2) / 5 + 1
  let m : Nat := if mp < 10 then mp + 3 else mp - 9
  (if m ≤ 2 then y + 1 else y, m, d)

/-- Seconds since 1970-01-01 00:00:00 of a civil date-time. -/
def dtToSecs (dt : DateTime) : Int :=
  daysFromCivil dt.year dt.month dt.day * 86400
    + (dt.hour * 3600 + dt.minute * 60 + dt.second : Nat)

/-- Civil date-time of a second count (floor division into days). -/
def secsToDt (t : Int) : DateTime :=
  let days : Int := Int.ediv t 86400
  let sod : Nat := (Int.emod t 86400).toNat
  match civilFromDays days with
  | (y, m, d) => ⟨y, m, d, sod / 3600, sod % 3600 / 60, sod % 60⟩

/-- Smallest representable instant, datetime.min: 0001-01-01 00:00:00. -/
def dtMinSecs : Int := dtToSecs ⟨1, 1, 1, 0, 0, 0⟩

/-- Largest representable whole-second instant, from datetime.max:
9999-12-31 23:59:59. -/
def dtMaxSecs : Int := dtToSecs ⟨9999, 12, 31, 23, 59, 59⟩

/-- datetime + timedelta: fails (OverflowError) outside the representable
range, mirroring Python datetime arithmetic. -/
def addTd (t d : Int) : Option Int :=
  if dtMinSecs ≤ t + d ∧ t + d ≤ dtMaxSecs then some (t + d) else none

/-- Split a character list on a separator character (the semantics of
String.splitOn with a one-character separator). -/
def splitOnChar (c : Char) : List Char → List (List Char)
  | [] => [[]]
  | x :: rest =>
    if x = c then [] :: splitOnChar c rest
    else
      match splitOnChar c rest with
      | h :: t => (x :: h) :: t
      | [] => [[x]]

/-- Value of a nonempty all-digit character run. -/
def digitsToNat (l : List Char) : Option Nat :=
  if l ≠ [] ∧ l.all Char.isDigit then
    some (l.foldl (fun acc c => acc * 10 + (c.toNat - 48)) 0)
  else none

/-- Numeric field of 1 or 2 digits with an inclusive value range, as the
strptime regexes for m, d, H, M, S admit. -/
def parseField2 (s : List Char) (lo hi : Nat) : Option Nat :=
  if s.length = 1 ∨ s.length = 2 then
    match digitsToNat s with
    | some v => if lo ≤ v ∧ v ≤ hi then some v else none
    | none => none
  else none

/-- parse_ist: strptime of a 'YYYY-MM-DD HH:MM:SS' string (the strptime
year field is exactly four digits; the other fields admit one or two
digits; the datetime constructor validates the day against the month).
Returns none where the source raises ValueError. -/
def parse_ist (str : String) : Option Int :=
  match splitOnChar ' ' str.data with
  | [datePart, timePart] =>
    match splitOnChar '-' datePart, splitOnChar ':' timePart with
    | [ys, ms, ds], [hs, mis, ss] =>
      if ys.length = 4 then
        match digitsToNat ys, parseField2 ms 1 12, parseField2 ds 1 31,
              parseField2 hs 0 23, parseField2 mis 0 59, parseField2 ss 0 59 with
        | some y, some m, some d, some hh, some mi, some sec =>
          if 1 ≤ y ∧ d ≤ daysInMonth y m then
            some (dtToSecs ⟨y, m, d, hh, mi, sec⟩)
          else none
        | _, _, _, _, _, _ => none
      else none
    | _, _ => none
  | _ => none

/-- Left-pad a numeral to two digits. -/
def pad2 (n : Nat) : String :=
  if n < 10 then "0" ++ toString n else toString n

/-- Left-pad a numeral to four digits. -/
def pad4 (n : Nat) : String :=
  if n < 10 then "000" ++ toString n
  else if n < 100 then "00" ++ toString n
  else if n < 1000 then "0" ++ toString n
  else toString n

/-- format_ist: strftime '%Y-%m-%d %H:%M:%S' of an instant. -/
def format_ist (t : Int) : String :=
  let dt := secsToDt t
  pad4 dt.year ++ "-" ++ pad2 dt.month ++ "-" ++ pad2 dt.day ++ " "
    ++ pad2 dt.hour ++ ":" ++ pad2 dt.minute ++ ":" ++ pad2 dt.second

/-- now.replace(hour=9, minute=0, second=0, microsecond=0): 09:00:00 of
the civil day of the given instant. -/
def replaceHour9 (t : Int) : Int :=
  let dt := secsToDt t
  dtToSecs ⟨dt.year, dt.month, dt.day, 9, 0, 0⟩

/-- JSON scalar as Python sees it (the locked field of a credential). -/
inductive PyVal where
  | vInt (n : Int)
  | vBool (b : Bool)
  | vStr (s : String)
  | vNull
deriving DecidableEq, Repr

/-- int() of a decimal string: optional surrounding whitespace, optional
sign, then a nonempty digit run; none where int() raises ValueError. -/
def pyStrToInt (s : String) : Option Int :=
  let stripped :=
    ((s.data.dropWhile Char.isWhitespace).reverse.dropWhile Char.isWhitespace).reverse
  match stripped with
  | '+' :: rest => (digitsToNat rest).map Int.ofNat
  | '-' :: rest => (digitsToNat rest).map (fun n => -(n : Int))
  | l => (digitsToNat l).map Int.ofNat

/-- int() of a JSON scalar; none where int() raises (ValueError or
TypeError), which the source does not catch. -/
def pyToInt : PyVal → Option Int
  | .vInt n => some n
  | .vBool b => some (if b then 1 else 0)
  | .vStr s => pyStrToInt s
  | .vNull => none

/-- A slot record under settings.slots. Fields the engine never touches
are omitted; "enabled" mirrors bool(slot_info.get("enabled", False)), the
string fields are present-or-absent (the source reads them with .get and
a default). -/
structure SlotInfo where
  enabled : Bool
  slot_start : Option String
  slot_end : Option String
  last_update : Option String
  frequency : Option String
deriving DecidableEq, Repr

/-- A top-level node of the store tree: either it passes is_credential
(all seven required keys present), in which case only belongs_to_slot and
locked are ever read or written by the engine, or it does not. -/
inductive DbNode where
  | cred (belongs_to_slot : String) (locked : PyVal)
  | other
deriving DecidableEq, Repr

/-- The store tree, as the reads return it: settings.slots (none models a
failed/empty settings read or a missing or non-dict slots node, all of
which the source treats alike before touching any slot), account_claims
as user id to list of claimed slot ids (the claim payloads are never
read), and the remaining top-level nodes. -/
structure Store where
  slots : Option (List (String × SlotInfo))
  claims : List (String × List String)
  creds : List (String × DbNode)
deriving DecidableEq, Repr

/-- slot_info.get("slot_start","9999-12-31 09:00:00"). -/
def startStrOf (info : SlotInfo) : String :=
  info.slot_start.getD "9999-12-31 09:00:00"

/-- slot_info.get("slot_end","9999-12-31 09:00:00"). -/
def endStrOf (info : SlotInfo) : String :=
  info.slot_end.getD "9999-12-31 09:00:00"

/-- slot_info.get("last_update",""). -/
def luStrOf (info : SlotInfo) : String :=
  info.last_update.getD ""

/-- str.lower() over the character list (kernel-computable equivalent of
String.toLower). -/
def strLower (s : String) : String :=
  ⟨s.data.map Char.toLower⟩

/-- Recurrence delta in seconds from slot_info.get("frequency","daily")
lowercased: 3 days for "3day", 7 days for "weekly", 1 day otherwise. -/
def freqDelta (info : SlotInfo) : Int :=
  let freq := strLower (info.frequency.getD "daily")
  if freq = "3day" then 259200
  else if freq = "weekly" then 604800
  else 86400

/-! ## Claim Reconciler (reset_account_claims) -/

/-- The reconciler's per-slot test: slot_end present and nonempty, parses,
and is strictly before now. -/
def slotExpiredB (now : Int) (info : SlotInfo) : Bool :=
  let es := info.slot_end.getD ""
  if es = "" then false
  else
    match parse_ist es with
    | none => false
    | some e => decide (now > e)

/-- Drop the claim entry keyed by sid from every user's claim map. -/
def removeClaims (sid : String) (claims : List (String × List String)) :
    List (String × List String) :=
  claims.map (fun p => (p.1, p.2.filter (fun x => x != sid)))

/-- The reconciler's slot loop: for each expired slot, remove its id from
every user's claim map, flagging the run dirty when any user had it. -/
def reconcileLoop (now : Int) :
    List (String × SlotInfo) → List (String × List String) → Bool →
    List (String × List String) × Bool
  | [], claims, dirty => (claims, dirty)
  | (sid, info) :: rest, claims, dirty =>
    if slotExpiredB now info then
      reconcileLoop now rest (removeClaims sid claims)
        (dirty || claims.any (fun p => p.2.contains sid))
    else
      reconcileLoop now rest claims dirty

/-- reset_account_claims: read the full tree, extract settings.slots
(abort if absent or empty, which also covers an empty tree — all those
abort paths leave the store unchanged exactly like an empty loop, so they
are folded into the one emptiness test), clear claims of expired slots,
and write the whole tree back only when dirty; a failed write
(writeOk = false) discards the changes. -/
def reset_account_claims (now : Int) (writeOk : Bool) (s : Store) : Store :=
  let slots := s.slots.getD []
  if slots = [] then s
  else
    match reconcileLoop now slots s.claims false with
    | (claims', dirty) =>
      if dirty && writeOk then { s with claims := claims' } else s

/-! ## Slot Locker (lock_by_slot) -/

/-- A credential entry triggers the uncaught int() exception when its
locked value is non-numeric. -/
def credHitB (sid : String) (e : String × DbNode) : Bool :=
  match e.2 with
  | .cred b l => b == sid && (pyToInt l).isNone
  | .other => false

/-- A credential entry of the slot whose int(locked) is 0 (the patch
condition of the source's inner loop). -/
def credLockB (sid : String) (e : String × DbNode) : Bool :=
  match e.2 with
  | .cred b l => b == sid && pyToInt l == some 0
  | .other => false

/-- The inner credential loop for one closed slot: patch locked = 1 on
each matching credential with int(locked) == 0; a non-numeric locked
raises, aborting with the credentials patched so far kept. -/
def lockSlotCreds (sid : String) :
    List (String × DbNode) → List (String × DbNode) × Nat × Bool
  | [] => ([], 0, false)
  | (k, node) :: rest =>
    match node with
    | .other =>
      match lockSlotCreds sid rest with
      | (r, n, c) => ((k, node) :: r, n, c)
    | .cred b l =>
      if b == sid then
        match pyToInt l with
        | none => ((k, node) :: rest, 0, true)
        | some v =>
          if v = 0 then
            match lockSlotCreds sid rest with
            | (r, n, c) => ((k, DbNode.cred b (PyVal.vInt 1)) :: r, n + 1, c)
          else
            match lockSlotCreds sid rest with
            | (r, n, c) => ((k, node) :: r, n, c)
      else
        match lockSlotCreds sid rest with
        | (r, n, c) => ((k, node) :: r, n, c)

/-- The locker's slot loop: enabled slots whose slot_end parses and with
now >= slot_end - 2min have their credentials locked; slot_end_dt - margin
below datetime.min raises OverflowError (crash), and a crash in the inner
loop stops everything with the patches already issued kept. -/
def lockLoop (now : Int) :
    List (String × SlotInfo) → List (String × DbNode) → Nat →
    List (String × DbNode) × Nat × Bool
  | [], creds, acc => (creds, acc, false)
  | (sid, info) :: rest, creds, acc =>
    if info.enabled then
      match parse_ist (endStrOf info) with
      | none => lockLoop now rest creds acc
      | some e =>
        if e - 120 < dtMinSecs then (creds, acc, true)
        else if now ≥ e - 120 then
          match lockSlotCreds sid creds with
          | (creds', n, true) => (creds', acc + n, true)
          | (creds', n, false) => lockLoop now rest creds' (acc + n)
        else lockLoop now rest creds acc
    else lockLoop now rest creds acc

/-- lock_by_slot: read settings and the full tree (a missing slots node
defaults to an empty map and an empty or failed read locks nothing, so
both are the identity), then run the slot loop. Returns the resulting
store, the count of successful patches, and the crash flag. -/
def lock_by_slot (now : Int) (s : Store) : Store × Nat × Bool :=
  match lockLoop now (s.slots.getD []) s.creds 0 with
  | (creds', n, c) => ({ s with creds := creds' }, n, c)

/-! ## Slot Shifter (update_slot_times_multi) -/

/-- The shifter's effective last_update instant: a missing, empty or
unparseable last_update is treated as now (so the delta is 0). -/
def luDtOf (now : Int) (info : SlotInfo) : Int :=
  if luStrOf info = "" then now
  else
    match parse_ist (luStrOf info) with
    | some l => l
    | none => now

/-- The shifter's effective slot_start instant: today 09:00 when parsing
the stored string (or the source's default for a missing key) raises. -/
def startDtOf (now : Int) (info : SlotInfo) : Int :=
  match parse_ist (startStrOf info) with
  | some t => t
  | none => replaceHour9 now

/-- The shifter's effective slot_end instant: slot_start + 1 day when
parsing raises; the fallback addition itself can overflow (none). -/
def endDtOf (now : Int) (info : SlotInfo) : Option Int :=
  match parse_ist (endStrOf info) with
  | some t => some t
  | none => addTd (startDtOf now info) 86400

/-- The body of one due slot of the shifter loop: add the frequency delta
to both effective instants (none models the uncaught OverflowError past
datetime.max) and stamp last_update. -/
def shiftBody (now : Int) (info : SlotInfo) : Option (SlotInfo × Bool) :=
  match endDtOf now info with
  | none => none
  | some endDt =>
    match addTd (startDtOf now info) (freqDelta info), addTd endDt (freqDelta info) with
    | some ns, some ne =>
      some ({ info with
                slot_start := some (format_ist ns)
                slot_end := some (format_ist ne)
                last_update := some (format_ist now) }, true)
    | _, _ => none

/-- One slot of the shifter loop: skip disabled slots; skip when the
delta since last_update is under 24 hours; otherwise shift. -/
def shiftSlot (now : Int) (info : SlotInfo) : Option (SlotInfo × Bool) :=
  if !info.enabled then some (info, false)
  else if now - luDtOf now info < 86400 then some (info, false)
  else shiftBody now info

/-- The shifter's slot loop over the whole map: stops at the first crash
(the in-memory map is then never written, so its partial content is
irrelevant); otherwise returns the updated map and whether any slot
shifted. -/
def computeShifts (now : Int) :
    List (String × SlotInfo) → List (String × SlotInfo) × Bool × Bool
  | [] => ([], false, false)
  | (sid, info) :: rest =>
    match shiftSlot now info with
    | none => ((sid, info) :: rest, false, true)
    | some (info', sh) =>
      match computeShifts now rest with
      | (rest', anyR, cr) => ((sid, info') :: rest', sh || anyR, cr)

/-- The observables of one composite Shifter run. -/
structure RunResult where
  store : Store
  recRan : Bool
  patchTried : Bool
  lockRan : Bool
  crashed : Bool
deriving DecidableEq, Repr

/-- update_slot_times_multi: read settings and require a slots dict
(otherwise return at once, before anything else); call
reset_account_claims; shift due slots; when at least one shifted, patch
the whole slot map back (patchOk models the HTTP status) and on success
call lock_by_slot on the patched store. Each callee samples its own
now (nowRec, nowLock), exactly as the source calls datetime.now(ist)
at the top of each function. -/
def update_slot_times_multi (now nowRec nowLock : Int)
    (recWriteOk patchOk : Bool) (s : Store) : RunResult :=
  match s.slots with
  | none => ⟨s, false, false, false, false⟩
  | some m =>
    let s1 := reset_account_claims nowRec recWriteOk s
    match computeShifts now m with
    | (_, _, true) => ⟨s1, true, false, false, true⟩
    | (m', anyS, false) =>
      if anyS then
        if patchOk then
          match lock_by_slot nowLock { s1 with slots := some m' } with
          | (s3, _, lc) => ⟨s3, true, true, true, lc⟩
        else ⟨s1, true, true, false, false⟩
      else ⟨s1, true, false, false, false⟩

/-! ## Helper lemmas -/

lemma beq_comm_str (a b : String) : (a == b) = (b == a) := by
  by_cases h : a = b
  · subst h
    rfl
  · cases h1 : a == b with
    | true => exact absurd (eq_of_beq h1) h
    | false =>
      cases h2 : b == a with
      | true => exact absurd (eq_of_beq h2).symm h
      | false => rfl

lemma map_eq_self_of {α : Type} {l : List α} {f : α → α}
    (h : ∀ p ∈ l, f p = p) : l.map f = l := by
  induction l with
  | nil => rfl
  | cons a t ih =>
    simp only [List.map_cons, h a (by simp)]
    rw [ih (fun p hp => h p (by simp [hp]))]

lemma filter_eq_self_of {α : Type} {l : List α} {p : α → Bool}
    (h : ∀ x ∈ l, p x = true) : l.filter p = l := by
  induction l with
  | nil => rfl
  | cons a t ih =>
    have ha : p a = true := h a (by simp)
    have ht : t.filter p = t := ih (fun x hx => h x (by simp [hx]))
    simp [List.filter_cons, ha, ht]

lemma contains_iff_mem (l : List String) (a : String) :
    l.contains a = true ↔ a ∈ l := by
  induction l with
  | nil => simp
  | cons b t ih =>
    simp only [List.contains_cons, Bool.or_eq_true, ih, List.mem_cons]
    constructor
    · rintro (h | h)
      · exact Or.inl (eq_of_beq h)
      · exact Or.inr h
    · rintro (h | h)
      · exact Or.inl (by simp [h])
      · exact Or.inr h

/-- Some slot entry with this id is expired at now (the condition under
which the reconciler loop removes the id from every user). -/
def expiredAnyB (now : Int) (slots : List (String × SlotInfo)) (x : String) : Bool :=
  slots.any (fun q => q.1 == x && slotExpiredB now q.2)

lemma parse_ist_empty : parse_ist "" = none := rfl

lemma slotExpiredB_iff (now : Int) (info : SlotInfo) :
    slotExpiredB now info = true ↔
      ∃ e, parse_ist (info.slot_end.getD "") = some e ∧ e < now := by
  unfold slotExpiredB
  by_cases h : info.slot_end.getD "" = ""
  · simp only [h, if_true]
    simp [parse_ist_empty]
  · simp only [h, if_false]
    cases hp : parse_ist (info.slot_end.getD "") with
    | none => simp
    | some e =>
      simp only [decide_eq_true_eq]
      constructor
      · intro hlt
        exact ⟨e, rfl, hlt⟩
      · rintro ⟨e', he', hlt⟩
        cases he'
        exact hlt

lemma expiredAnyB_iff (now : Int) (slots : List (String × SlotInfo)) (x : String) :
    expiredAnyB now slots x = true ↔
      ∃ info, (x, info) ∈ slots ∧
        ∃ e, parse_ist (info.slot_end.getD "") = some e ∧ e < now := by
  unfold expiredAnyB
  simp only [List.any_eq_true, Bool.and_eq_true, beq_iff_eq]
  constructor
  · rintro ⟨⟨sid, info⟩, hmem, hid, hexp⟩
    cases hid
    exact ⟨info, hmem, (slotExpiredB_iff now info).mp hexp⟩
  · rintro ⟨info, hmem, hcond⟩
    exact ⟨(x, info), hmem, rfl, (slotExpiredB_iff now info).mpr hcond⟩

lemma reconcileLoop_spec (now : Int) (slots : List (String × SlotInfo)) :
    ∀ (claims : List (String × List String)) (d : Bool),
      (reconcileLoop now slots claims d).1
          = claims.map (fun p => (p.1, p.2.filter (fun x => !expiredAnyB now slots x)))
        ∧ ((reconcileLoop now slots claims d).2 = true ↔
            d = true ∨ ∃ p ∈ claims, ∃ x ∈ p.2, expiredAnyB now slots x = true) := by
  induction slots with
  | nil =>
    intro claims d
    constructor
    · rw [map_eq_self_of]
      · rfl
      · intro p _
        rw [filter_eq_self_of]
        intro x _
        simp [expiredAnyB]
    · simp [reconcileLoop, expiredAnyB]
  | cons head rest ih =>
    intro claims d
    obtain ⟨sid, info⟩ := head
    by_cases hExp : slotExpiredB now info = true
    · have hstep : reconcileLoop now ((sid, info) :: rest) claims d
          = reconcileLoop now rest (removeClaims sid claims)
              (d || claims.any (fun p => p.2.contains sid)) := by
        simp [reconcileLoop, hExp]
      have hpred : ∀ x : String,
          expiredAnyB now ((sid, info) :: rest) x
            = ((sid == x) || expiredAnyB now rest x) := by
        intro x
        simp [expiredAnyB, hExp]
      constructor
      · rw [hstep, (ih _ _).1, removeClaims, List.map_map]
        apply List.map_congr_left
        intro p _
        simp only [Function.comp]
        rw [List.filter_filter]
        apply congrArg
        apply List.filter_congr
        intro x _
        simp only [bne]
        rw [hpred x, beq_comm_str x sid]
        cases h1 : sid == x <;> cases h2 : expiredAnyB now rest x <;> rfl
      · rw [hstep]
        rw [(ih _ _).2]
        simp only [Bool.or_eq_true, List.any_eq_true]
        constructor
        · rintro ((hd | ⟨p, hp, hc⟩) | ⟨p, hp, x, hx, he⟩)
          · exact Or.inl hd
          · refine Or.inr ⟨p, hp, sid, (contains_iff_mem _ _).mp hc, ?_⟩
            rw [hpred sid]
            simp
          · rcases List.mem_map.mp hp with ⟨q, hq, hqe⟩
            cases hqe
            rcases List.mem_filter.mp hx with ⟨hxq, hxne⟩
            refine Or.inr ⟨q, hq, x, hxq, ?_⟩
            rw [hpred x]
            simp [he]
        · rintro (hd | ⟨p, hp, x, hx, he⟩)
          · exact Or.inl (Or.inl hd)
          · rw [hpred x] at he
            cases hsx : sid == x with
            | true =>
              have : x = sid := (eq_of_beq hsx).symm
              subst this
              exact Or.inl (Or.inr ⟨p, hp, (contains_iff_mem _ _).mpr hx⟩)
            | false =>
              have hrest : expiredAnyB now rest x = true := by
                rw [hsx] at he
                simpa using he
              by_cases hxs : x = sid
              · subst hxs
                exact Or.inl (Or.inr ⟨p, hp, (contains_iff_mem _ _).mpr hx⟩)
              · refine Or.inr ⟨(p.1, p.2.filter (fun y => y != sid)), ?_, x, ?_, hrest⟩
                · exact List.mem_map.mpr ⟨p, hp, rfl⟩
                · refine List.mem_filter.mpr ⟨hx, ?_⟩
                  simp [hxs]
    · have hExp' : slotExpiredB now info = false := by
        cases h : slotExpiredB now info
        · rfl
        · exact absurd h hExp
      have hstep : reconcileLoop now ((sid, info) :: rest) claims d
          = reconcileLoop now rest claims d := by
        simp [reconcileLoop, hExp']
      have hpred : ∀ x : String,
          expiredAnyB now ((sid, info) :: rest) x = expiredAnyB now rest x := by
        intro x
        simp [expiredAnyB, hExp']
      constructor
      · rw [hstep, (ih _ _).1]
        apply List.map_congr_left
        intro p _
        apply congrArg
        apply List.filter_congr
        intro x _
        rw [hpred x]
      · rw [hstep, (ih _ _).2]
        constructor
        · rintro (hd | ⟨p, hp, x, hx, he⟩)
          · exact Or.inl hd
          · exact Or.inr ⟨p, hp, x, hx, by rw [hpred x]; exact he⟩
        · rintro (hd | ⟨p, hp, x, hx, he⟩)
          · exact Or.inl hd
          · exact Or.inr ⟨p, hp, x, hx, by rw [← hpred x]; exact he⟩

/-- The claims component of a successful reconciler run: every user keeps
exactly the claim ids that no expired slot entry carries. -/
lemma reset_account_claims_claims_eq (now : Int) (s : Store) :
    (reset_account_claims now true s).claims
      = s.claims.map
          (fun p => (p.1, p.2.filter (fun x => !expiredAnyB now (s.slots.getD []) x))) := by
  have hid : ∀ (slots : List (String × SlotInfo)), slots = [] →
      s.claims = s.claims.map
        (fun p => (p.1, p.2.filter (fun x => !expiredAnyB now slots x))) := by
    intro slots hs
    subst hs
    symm
    apply map_eq_self_of
    intro p _
    have : p.2.filter (fun x => !expiredAnyB now ([] : List (String × SlotInfo)) x) = p.2 := by
      apply filter_eq_self_of
      intro x _
      simp [expiredAnyB]
    rw [this]
  unfold reset_account_claims
  by_cases hnil : s.slots.getD [] = []
  · rw [if_pos hnil, hnil]
    exact hid [] rfl
  · rw [if_neg hnil]
    rcases hloop : reconcileLoop now (s.slots.getD []) s.claims false with ⟨claims', dirty⟩
    have hspec := reconcileLoop_spec now (s.slots.getD []) s.claims false
    rw [hloop] at hspec
    simp only [hloop]
    cases hd : dirty with
      | true =>
        simp only [hd, Bool.and_self, if_true]
        exact hspec.1
      | false =>
        simp only [hd, Bool.false_and, if_false]
        have hnone : ¬ (∃ p ∈ s.claims, ∃ x ∈ p.2,
            expiredAnyB now (s.slots.getD []) x = true) := by
          intro hcon
          have := hspec.2.mpr (Or.inr hcon)
          rw [hd] at this
          cases this
        symm
        apply map_eq_self_of
        intro p hp
        have : p.2.filter (fun x => !expiredAnyB now (s.slots.getD []) x) = p.2 := by
          apply filter_eq_self_of
          intro x hx
          cases h : expiredAnyB now (s.slots.getD []) x
          · rfl
          · exact absurd ⟨p, hp, x, hx, h⟩ hnone
        rw [this]

/-- C3: a Reconciler run (with the write succeeding) removes the claim
entry for slot S under user U if and only if some slot-map entry for S
has a slot_end that parses and is strictly before now; claims for slots
with a future, missing, or unparseable slot_end are preserved unchanged. -/
theorem reconciler_removes_claim_iff_expired (now : Int) (s : Store) :
    (reset_account_claims now true s).claims
        = s.claims.map
            (fun p => (p.1, p.2.filter (fun x => !expiredAnyB now (s.slots.getD []) x)))
      ∧ ∀ x : String, expiredAnyB now (s.slots.getD []) x = true ↔
          ∃ info, (x, info) ∈ s.slots.getD [] ∧
            ∃ e, parse_ist (info.slot_end.getD "") = some e ∧ e < now := by
  exact ⟨reset_account_claims_claims_eq now s,
         fun x => expiredAnyB_iff now (s.slots.getD []) x⟩

/-- C3 witness: at a concrete store one expired claim disappears and a
live one stays. -/
theorem reconciler_removes_claim_iff_expired_witness :
    (reset_account_claims (dtToSecs ⟨2024, 1, 3, 0, 0, 0⟩) true
        ⟨some [("slot_1",
            ⟨true, some "2024-01-01 09:00:00", some "2024-01-02 09:00:00",
             some "2024-01-01 08:00:00", none⟩)],
         [("u1", ["slot_1", "slot_2"])], []⟩).claims
      = [("u1", ["slot_2"])] := by
  have h := (reconciler_removes_claim_iff_expired (dtToSecs ⟨2024, 1, 3, 0, 0, 0⟩)
      ⟨some [("slot_1",
          ⟨true, some "2024-01-01 09:00:00", some "2024-01-02 09:00:00",
           some "2024-01-01 08:00:00", none⟩)],
       [("u1", ["slot_1", "slot_2"])], []⟩).1
  rw [h]
  decide

/-- C10: the Reconciler ignores the enabled flag: a disabled slot whose
slot_end parses and lies strictly in the past has its claim entries
removed from every user, exactly as for an enabled slot. -/
theorem reconciler_ignores_enabled (now : Int) (s : Store) (sid : String)
    (info : SlotInfo) (u : String) (cl : List String)
    (hmem : (sid, info) ∈ s.slots.getD []) (_hdis : info.enabled = false)
    (hparse : ∃ e, parse_ist (info.slot_end.getD "") = some e ∧ e < now)
    (hclaim : (u, cl) ∈ s.claims) :
    (u, cl.filter (fun x => !expiredAnyB now (s.slots.getD []) x))
        ∈ (reset_account_claims now true s).claims
      ∧ sid ∉ cl.filter (fun x => !expiredAnyB now (s.slots.getD []) x) := by
  have hexp : expiredAnyB now (s.slots.getD []) sid = true :=
    (expiredAnyB_iff now _ sid).mpr ⟨info, hmem, hparse⟩
  constructor
  · rw [reset_account_claims_claims_eq now s]
    exact List.mem_map.mpr ⟨(u, cl), hclaim, rfl⟩
  · intro hcon
    have := (List.mem_filter.mp hcon).2
    rw [hexp] at this
    cases this

/-- C10 witness: a concrete disabled expired slot loses its claim. -/
theorem reconciler_ignores_enabled_witness :
    ("u1", ["slot_2"]) ∈ (reset_account_claims (dtToSecs ⟨2024, 1, 3, 0, 0, 0⟩) true
        ⟨some [("slot_1",
            ⟨false, some "2024-01-01 09:00:00", some "2024-01-02 09:00:00",
             some "2024-01-01 08:00:00", none⟩)],
         [("u1", ["slot_1", "slot_2"])], []⟩).claims := by
  have h := reconciler_ignores_enabled (dtToSecs ⟨2024, 1, 3, 0, 0, 0⟩)
      ⟨some [("slot_1",
          ⟨false, some "2024-01-01 09:00:00", some "2024-01-02 09:00:00",
           some "2024-01-01 08:00:00", none⟩)],
       [("u1", ["slot_1", "slot_2"])], []⟩
      "slot_1"
      ⟨false, some "2024-01-01 09:00:00", some "2024-01-02 09:00:00",
       some "2024-01-01 08:00:00", none⟩
      "u1" ["slot_1", "slot_2"]
      (by decide) (by rfl)
      ⟨dtToSecs ⟨2024, 1, 2, 9, 0, 0⟩, by decide, by decide⟩
      (by decide)
  have h1 := h.1
  have : (["slot_1", "slot_2"].filter
      (fun x => !expiredAnyB (dtToSecs ⟨2024, 1, 3, 0, 0, 0⟩)
        ((⟨some [("slot_1",
            (⟨false, some "2024-01-01 09:00:00", some "2024-01-02 09:00:00",
             some "2024-01-01 08:00:00", none⟩ : SlotInfo))],
          [("u1", ["slot_1", "slot_2"])], []⟩ : Store).slots.getD []) x))
      = ["slot_2"] := by decide
  rw [this] at h1
  exact h1

/-! ## Locker lemmas -/

/-- A slot entry's window is closed for locking: enabled, slot_end (with
the source's default) parses, and now is past slot_end minus the 2-minute
margin. -/
def slotClosedB (now : Int) (info : SlotInfo) : Bool :=
  info.enabled &&
    (match parse_ist (endStrOf info) with
     | some e => decide (e - 120 ≤ now)
     | none => false)

/-- Some slot entry with this id is closed at now. -/
def closedAnyB (now : Int) (slots : List (String × SlotInfo)) (b : String) : Bool :=
  slots.any (fun q => q.1 == b && slotClosedB now q.2)

/-- The lock condition for one credential entry relative to the whole
slot map: it is a credential of some closed slot and int(locked) is 0. -/
def credElig (now : Int) (slots : List (String × SlotInfo)) (e : String × DbNode) : Bool :=
  match e.2 with
  | .cred b l => closedAnyB now slots b && pyToInt l == some 0
  | .other => false

/-- One credential entry after the inner loop of a single slot. -/
def lockEntry (sid : String) (e : String × DbNode) : String × DbNode :=
  match e with
  | (k, .cred b l) =>
    if b == sid && pyToInt l == some 0 then (k, .cred b (.vInt 1)) else (k, .cred b l)
  | (k, .other) => (k, .other)

/-- One credential entry after a full no-crash locker pass. -/
def lockEntryAll (now : Int) (slots : List (String × SlotInfo)) (e : String × DbNode) :
    String × DbNode :=
  match e with
  | (k, .cred b l) =>
    if closedAnyB now slots b && pyToInt l == some 0 then (k, .cred b (.vInt 1))
    else (k, .cred b l)
  | (k, .other) => (k, .other)

/-- The locker does not crash at this slot: either it is skipped, or the
margin subtraction stays in range and, when closed, no matching credential
has a non-numeric locked value. -/
def slotSafeB (now : Int) (creds : List (String × DbNode)) (q : String × SlotInfo) : Bool :=
  !q.2.enabled ||
    (match parse_ist (endStrOf q.2) with
     | none => true
     | some e =>
       decide (dtMinSecs ≤ e - 120) &&
         (!decide (e - 120 ≤ now) || creds.all (fun c => !credHitB q.1 c)))

lemma band_elim {a b : Bool} (h : (a && b) = true) : a = true ∧ b = true := by
  cases a with
  | false => cases h
  | true =>
    cases b with
    | false => cases h
    | true => exact ⟨rfl, rfl⟩

lemma band_intro {a b : Bool} (ha : a = true) (hb : b = true) : (a && b) = true := by
  subst ha
  subst hb
  rfl

lemma all_cons_elim {α : Type} {p : α → Bool} {a : α} {l : List α}
    (h : (a :: l).all p = true) : p a = true ∧ l.all p = true := by
  rw [List.all_cons] at h
  exact band_elim h

lemma all_cons_of {α : Type} {p : α → Bool} {a : α} {l : List α}
    (ha : p a = true) (hl : l.all p = true) : (a :: l).all p = true := by
  rw [List.all_cons, ha, hl]
  rfl

lemma credHitB_lockEntry (sid q : String) (e : String × DbNode) :
    credHitB q (lockEntry sid e) = credHitB q e := by
  obtain ⟨k, node⟩ := e
  cases node with
  | other => rfl
  | cred b l =>
    cases hl : pyToInt l with
    | none =>
      have hc : (b == sid && pyToInt l == some 0) = false := by simp [hl]
      simp [lockEntry, hc]
    | some v =>
      by_cases hv : v = 0
      · subst hv
        cases hb : b == sid with
        | false => simp [lockEntry, hb]
        | true =>
          have h1 : lockEntry sid (k, DbNode.cred b l) = (k, DbNode.cred b (PyVal.vInt 1)) := by
            simp [lockEntry, hb, hl]
          rw [h1]
          show ((b == q) && (pyToInt (PyVal.vInt 1)).isNone)
              = ((b == q) && (pyToInt l).isNone)
          rw [hl]
          rfl
      · have hc : (b == sid && pyToInt l == some 0) = false := by simp [hl, hv]
        simp [lockEntry, hc]

lemma lockSlotCreds_nohit (sid : String) :
    ∀ creds : List (String × DbNode),
      creds.all (fun c => !credHitB sid c) = true →
      lockSlotCreds sid creds
        = (creds.map (lockEntry sid), creds.countP (credLockB sid), false) := by
  intro creds
  induction creds with
  | nil => intro _; rfl
  | cons e rest ih =>
    intro hall
    have hparts := all_cons_elim hall
    have hrest := ih hparts.2
    obtain ⟨k, node⟩ := e
    cases node with
    | other =>
      simp [lockSlotCreds, hrest, lockEntry, credLockB, List.countP_cons]
    | cred b l =>
      cases hb : b == sid with
      | false =>
        simp [lockSlotCreds, hb, hrest, lockEntry, credLockB, List.countP_cons]
      | true =>
        cases hl : pyToInt l with
        | none =>
          exfalso
          have : credHitB sid (k, DbNode.cred b l) = true := by
            simp [credHitB, hb, hl]
          rw [this] at hparts
          cases hparts.1
        | some v =>
          by_cases hv : v = 0
          · subst hv
            simp [lockSlotCreds, hb, hl, hrest, lockEntry, credLockB,
                  List.countP_cons, Nat.add_comm]
          · simp [lockSlotCreds, hb, hl, hv, hrest, lockEntry, credLockB,
                  List.countP_cons]

lemma lockSlotCreds_nocrash_all (sid : String) :
    ∀ creds : List (String × DbNode),
      (lockSlotCreds sid creds).2.2 = false →
      creds.all (fun c => !credHitB sid c) = true := by
  intro creds
  induction creds with
  | nil => intro _; rfl
  | cons e rest ih =>
    intro h
    obtain ⟨k, node⟩ := e
    rcases hrec : lockSlotCreds sid rest with ⟨r, n, c⟩
    cases node with
    | other =>
      simp only [lockSlotCreds, hrec] at h
      refine all_cons_of (by simp [credHitB]) (ih ?_)
      rw [hrec]
      exact h
    | cred b l =>
      cases hb : b == sid with
      | false =>
        simp only [lockSlotCreds, hb, hrec] at h
        simp only [Bool.false_eq_true, if_false] at h
        refine all_cons_of (by simp [credHitB, hb]) (ih ?_)
        rw [hrec]
        exact h
      | true =>
        cases hl : pyToInt l with
        | none =>
          simp [lockSlotCreds, hb, hl] at h
        | some v =>
          by_cases hv : v = 0
          · subst hv
            simp only [lockSlotCreds, hb, hl, hrec] at h
            refine all_cons_of (by simp [credHitB, hl]) (ih ?_)
            rw [hrec]
            simpa using h
          · simp only [lockSlotCreds, hb, hl, hrec] at h
            rw [if_neg hv] at h
            refine all_cons_of (by simp [credHitB, hl]) (ih ?_)
            rw [hrec]
            simpa using h

lemma all_map' {α β : Type} (f : α → β) (p : β → Bool) :
    ∀ l : List α, (l.map f).all p = l.all (fun x => p (f x)) := by
  intro l
  induction l with
  | nil => rfl
  | cons a t ih => simp [List.all_cons, ih]

lemma all_congr' {α : Type} {p q : α → Bool} (h : ∀ x, p x = q x) :
    ∀ l : List α, l.all p = l.all q := by
  intro l
  induction l with
  | nil => rfl
  | cons a t ih => simp [List.all_cons, ih, h a]

lemma countP_congr' {α : Type} {p q : α → Bool} (h : ∀ x, p x = q x) :
    ∀ l : List α, l.countP p = l.countP q := by
  intro l
  induction l with
  | nil => rfl
  | cons a t ih => simp [List.countP_cons, ih, h a]

lemma countP_zero_of {α : Type} {p : α → Bool} :
    ∀ {l : List α}, (∀ e ∈ l, p e = false) → l.countP p = 0 := by
  intro l
  induction l with
  | nil => intro _; rfl
  | cons a t ih =>
    intro h
    simp [List.countP_cons, h a (by simp), ih (fun e he => h e (by simp [he]))]

lemma countP_split {α : Type} (f : α → α) (p q r : α → Bool) :
    ∀ l : List α,
      (∀ e, ((if p e then 1 else 0) + (if r (f e) then 1 else 0) : Nat)
          = if q e then 1 else 0) →
      l.countP p + (l.map f).countP r = l.countP q := by
  intro l h
  induction l with
  | nil => rfl
  | cons a t ih =>
    simp only [List.countP_cons, List.map_cons]
    have := h a
    omega

lemma closedAnyB_cons (now : Int) (sid : String) (info : SlotInfo)
    (rest : List (String × SlotInfo)) (b : String) :
    closedAnyB now ((sid, info) :: rest) b
      = ((sid == b && slotClosedB now info) || closedAnyB now rest b) := by
  simp [closedAnyB]

/-- When a head slot is skipped, both the per-entry transform and the
eligibility test reduce to the tail's. -/
lemma lockEntryAll_skip (now : Int) (sid : String) (info : SlotInfo)
    (rest : List (String × SlotInfo)) (hcl : slotClosedB now info = false)
    (e : String × DbNode) :
    lockEntryAll now ((sid, info) :: rest) e = lockEntryAll now rest e
      ∧ credElig now ((sid, info) :: rest) e = credElig now rest e := by
  obtain ⟨k, node⟩ := e
  cases node with
  | other => exact ⟨rfl, rfl⟩
  | cred b l =>
    have hc : closedAnyB now ((sid, info) :: rest) b = closedAnyB now rest b := by
      rw [closedAnyB_cons, hcl]
      simp
    constructor
    · simp only [lockEntryAll, hc]
    · simp only [credElig, hc]

/-- When the head slot is closed, transforming for the head and then for
the tail equals the combined transform. -/
lemma lockEntryAll_closed (now : Int) (sid : String) (info : SlotInfo)
    (rest : List (String × SlotInfo)) (hcl : slotClosedB now info = true)
    (e : String × DbNode) :
    lockEntryAll now rest (lockEntry sid e)
      = lockEntryAll now ((sid, info) :: rest) e := by
  obtain ⟨k, node⟩ := e
  cases node with
  | other => rfl
  | cred b l =>
    have hcons : closedAnyB now ((sid, info) :: rest) b
        = ((sid == b) || closedAnyB now rest b) := by
      rw [closedAnyB_cons, hcl]
      simp
    cases hl : pyToInt l with
    | none =>
      have h1 : lockEntry sid (k, DbNode.cred b l) = (k, DbNode.cred b l) := by
        simp [lockEntry, hl]
      rw [h1]
      simp [lockEntryAll, hl]
    | some v =>
      by_cases hv : v = 0
      · subst hv
        cases hb : b == sid with
        | true =>
          have h1 : lockEntry sid (k, DbNode.cred b l)
              = (k, DbNode.cred b (PyVal.vInt 1)) := by
            simp [lockEntry, hb, hl]
          rw [h1]
          have h2 : closedAnyB now ((sid, info) :: rest) b = true := by
            rw [hcons, beq_comm_str sid b, hb]
            rfl
          simp [lockEntryAll, h2, hl]
        | false =>
          have h1 : lockEntry sid (k, DbNode.cred b l) = (k, DbNode.cred b l) := by
            simp [lockEntry, hb]
          rw [h1]
          have h2 : closedAnyB now ((sid, info) :: rest) b = closedAnyB now rest b := by
            rw [hcons, beq_comm_str sid b, hb]
            simp
          simp only [lockEntryAll, h2]
      · have h1 : lockEntry sid (k, DbNode.cred b l) = (k, DbNode.cred b l) := by
          simp [lockEntry, hl, hv]
        rw [h1]
        have h3 : (pyToInt l == some 0) = false := by
          simp [hl, hv]
        simp [lockEntryAll, h3]

/-- Counting variant of the previous lemma: a credential is counted by
the head slot or by the tail on the transformed entry, never both. -/
lemma lockCount_closed (now : Int) (sid : String) (info : SlotInfo)
    (rest : List (String × SlotInfo)) (hcl : slotClosedB now info = true)
    (e : String × DbNode) :
    ((if credLockB sid e then 1 else 0)
        + (if credElig now rest (lockEntry sid e) then 1 else 0) : Nat)
      = if credElig now ((sid, info) :: rest) e then 1 else 0 := by
  obtain ⟨k, node⟩ := e
  cases node with
  | other => rfl
  | cred b l =>
    have hcons : closedAnyB now ((sid, info) :: rest) b
        = ((sid == b) || closedAnyB now rest b) := by
      rw [closedAnyB_cons, hcl]
      simp
    cases hl : pyToInt l with
    | none =>
      have h1 : lockEntry sid (k, DbNode.cred b l) = (k, DbNode.cred b l) := by
        simp [lockEntry, hl]
      rw [h1]
      simp [credLockB, credElig, hl]
    | some v =>
      by_cases hv : v = 0
      · subst hv
        cases hb : b == sid with
        | true =>
          have h1 : lockEntry sid (k, DbNode.cred b l)
              = (k, DbNode.cred b (PyVal.vInt 1)) := by
            simp [lockEntry, hb, hl]
          rw [h1]
          have h2 : closedAnyB now ((sid, info) :: rest) b = true := by
            rw [hcons, beq_comm_str sid b, hb]
            rfl
          have h4 : credElig now rest (k, DbNode.cred b (PyVal.vInt 1)) = false := by
            simp [credElig, pyToInt]
          simp [credLockB, credElig, hb, hl, h2, h4]
          intro _ hcon
          exact absurd (Option.some.inj hcon) (by decide)
        | false =>
          have h1 : lockEntry sid (k, DbNode.cred b l) = (k, DbNode.cred b l) := by
            simp [lockEntry, hb]
          rw [h1]
          have h2 : closedAnyB now ((sid, info) :: rest) b = closedAnyB now rest b := by
            rw [hcons, beq_comm_str sid b, hb]
            simp
          simp [credLockB, credElig, hb, h2]
      · have h1 : lockEntry sid (k, DbNode.cred b l) = (k, DbNode.cred b l) := by
          simp [lockEntry, hl, hv]
        rw [h1]
        have h3 : (pyToInt l == some 0) = false := by
          simp [hl, hv]
        simp [credLockB, credElig, h3]

lemma credHitB_lockEntryAll (now : Int) (slots : List (String × SlotInfo))
    (q : String) (e : String × DbNode) :
    credHitB q (lockEntryAll now slots e) = credHitB q e := by
  obtain ⟨k, node⟩ := e
  cases node with
  | other => rfl
  | cred b l =>
    cases hl : pyToInt l with
    | none =>
      have hc : (closedAnyB now slots b && pyToInt l == some 0) = false := by
        simp [hl]
      simp [lockEntryAll, hc]
    | some v =>
      by_cases hv : v = 0
      · subst hv
        cases hb : closedAnyB now slots b with
        | false => simp [lockEntryAll, hb]
        | true =>
          have h1 : lockEntryAll now slots (k, DbNode.cred b l)
              = (k, DbNode.cred b (PyVal.vInt 1)) := by
            simp [lockEntryAll, hb, hl]
          rw [h1]
          show ((b == q) && (pyToInt (PyVal.vInt 1)).isNone)
              = ((b == q) && (pyToInt l).isNone)
          rw [hl]
          rfl
      · have hc : (closedAnyB now slots b && pyToInt l == some 0) = false := by
          simp [hl, hv]
        simp [lockEntryAll, hc]

lemma slotSafeB_map_lockEntry (now : Int) (sid : String)
    (creds : List (String × DbNode)) (q : String × SlotInfo) :
    slotSafeB now (creds.map (lockEntry sid)) q = slotSafeB now creds q := by
  have hall : (creds.map (lockEntry sid)).all (fun c => !credHitB q.1 c)
      = creds.all (fun c => !credHitB q.1 c) := by
    rw [all_map' (lockEntry sid) (fun c => !credHitB q.1 c) creds]
    exact all_congr' (fun e => by rw [credHitB_lockEntry]) creds
  simp only [slotSafeB, hall]

lemma lockEntryAll_not_elig (now : Int) (slots : List (String × SlotInfo))
    (e : String × DbNode) (h : credElig now slots e = false) :
    lockEntryAll now slots e = e := by
  obtain ⟨k, node⟩ := e
  cases node with
  | other => rfl
  | cred b l =>
    have : (closedAnyB now slots b && pyToInt l == some 0) = false := by
      simpa [credElig] using h
    simp [lockEntryAll, this]

lemma credElig_lockEntryAll (now : Int) (slots : List (String × SlotInfo))
    (e : String × DbNode) :
    credElig now slots (lockEntryAll now slots e) = false := by
  obtain ⟨k, node⟩ := e
  cases node with
  | other => rfl
  | cred b l =>
    cases hc : (closedAnyB now slots b && pyToInt l == some 0) with
    | false =>
      have h1 : lockEntryAll now slots (k, DbNode.cred b l) = (k, DbNode.cred b l) := by
        simp only [lockEntryAll, hc]
        rfl
      rw [h1]
      simpa [credElig] using hc
    | true =>
      have h1 : lockEntryAll now slots (k, DbNode.cred b l)
          = (k, DbNode.cred b (PyVal.vInt 1)) := by
        simp only [lockEntryAll, hc]
        rfl
      rw [h1]
      simp [credElig, pyToInt]

lemma lockEntryAll_nil (now : Int) (e : String × DbNode) :
    lockEntryAll now [] e = e := by
  obtain ⟨k, node⟩ := e
  cases node with
  | other => rfl
  | cred b l => simp [lockEntryAll, closedAnyB]

lemma lockLoop_safe (now : Int) :
    ∀ (slots : List (String × SlotInfo)) (creds : List (String × DbNode)) (acc : Nat),
      slots.all (slotSafeB now creds) = true →
      lockLoop now slots creds acc
        = (creds.map (lockEntryAll now slots),
           acc + creds.countP (credElig now slots), false) := by
  intro slots
  induction slots with
  | nil =>
    intro creds acc _
    rw [map_eq_self_of (fun e _ => lockEntryAll_nil now e)]
    rw [countP_zero_of (fun e _ => by
      obtain ⟨k, node⟩ := e
      cases node with
      | other => rfl
      | cred b l => simp [credElig, closedAnyB])]
    rfl
  | cons head rest ih =>
    intro creds acc hall
    obtain ⟨sid, info⟩ := head
    have hparts := all_cons_elim hall
    have hsafe := hparts.1
    have hrest := hparts.2
    have hskip : slotClosedB now info = false →
        lockLoop now ((sid, info) :: rest) creds acc = lockLoop now rest creds acc →
        lockLoop now ((sid, info) :: rest) creds acc
          = (creds.map (lockEntryAll now ((sid, info) :: rest)),
             acc + creds.countP (credElig now ((sid, info) :: rest)), false) := by
      intro hcl hstep
      rw [hstep, ih creds acc hrest]
      rw [List.map_congr_left (fun e _ => ((lockEntryAll_skip now sid info rest hcl e).1).symm)]
      rw [countP_congr' (fun e => ((lockEntryAll_skip now sid info rest hcl e).2).symm) creds]
    cases hen : info.enabled with
    | false =>
      have hcl : slotClosedB now info = false := by simp [slotClosedB, hen]
      refine hskip hcl ?_
      simp [lockLoop, hen]
    | true =>
      cases hp : parse_ist (endStrOf info) with
      | none =>
        have hcl : slotClosedB now info = false := by simp [slotClosedB, hp]
        refine hskip hcl ?_
        simp [lockLoop, hen, hp]
      | some e =>
        have hsafe' := hsafe
        simp only [slotSafeB, hen, hp, Bool.not_true, Bool.false_or] at hsafe'
        have hsafe2 := band_elim hsafe'
        have hmin : dtMinSecs ≤ e - 120 := of_decide_eq_true hsafe2.1
        have hnotlt : ¬ (e - 120 < dtMinSecs) := not_lt.mpr hmin
        by_cases hcmp : e - 120 ≤ now
        · have hcl : slotClosedB now info = true := by
            simp [slotClosedB, hen, hp, hcmp]
          have hnohit : creds.all (fun c => !credHitB sid c) = true := by
            rcases Bool.or_eq_true_iff.mp hsafe2.2 with hno | hyes
            · rw [decide_eq_true hcmp] at hno
              cases hno
            · exact hyes
          have hlsc := lockSlotCreds_nohit sid creds hnohit
          have hstep : lockLoop now ((sid, info) :: rest) creds acc
              = lockLoop now rest (creds.map (lockEntry sid))
                  (acc + creds.countP (credLockB sid)) := by
            simp only [lockLoop, hen, hp]
            rw [if_neg hnotlt, if_pos hcmp, hlsc]
            simp
          rw [hstep]
          have hrest' : rest.all (slotSafeB now (creds.map (lockEntry sid))) = true := by
            rw [all_congr' (fun q => slotSafeB_map_lockEntry now sid creds q) rest]
            exact hrest
          rw [ih (creds.map (lockEntry sid)) (acc + creds.countP (credLockB sid)) hrest']
          rw [List.map_map]
          rw [List.map_congr_left
                (fun x _ => by
                  show lockEntryAll now rest (lockEntry sid x)
                      = lockEntryAll now ((sid, info) :: rest) x
                  exact lockEntryAll_closed now sid info rest hcl x)]
          have hcnt := countP_split (lockEntry sid) (credLockB sid)
              (credElig now ((sid, info) :: rest)) (credElig now rest) creds
              (fun x => lockCount_closed now sid info rest hcl x)
          rw [Nat.add_assoc, hcnt]
        · have hcl : slotClosedB now info = false := by
            simp [slotClosedB, hen, hp, hcmp]
          refine hskip hcl ?_
          simp only [lockLoop, hen, hp]
          rw [if_neg hnotlt, if_neg hcmp]
          simp

lemma lockLoop_nocrash_safe (now : Int) :
    ∀ (slots : List (String × SlotInfo)) (creds : List (String × DbNode)) (acc : Nat),
      (lockLoop now slots creds acc).2.2 = false →
      slots.all (slotSafeB now creds) = true := by
  intro slots
  induction slots with
  | nil => intro creds acc _; rfl
  | cons head rest ih =>
    intro creds acc h
    obtain ⟨sid, info⟩ := head
    cases hen : info.enabled with
    | false =>
      have hstep : lockLoop now ((sid, info) :: rest) creds acc
          = lockLoop now rest creds acc := by
        simp [lockLoop, hen]
      rw [hstep] at h
      refine all_cons_of ?_ (ih creds acc h)
      simp [slotSafeB, hen]
    | true =>
      cases hp : parse_ist (endStrOf info) with
      | none =>
        have hstep : lockLoop now ((sid, info) :: rest) creds acc
            = lockLoop now rest creds acc := by
          simp [lockLoop, hen, hp]
        rw [hstep] at h
        refine all_cons_of ?_ (ih creds acc h)
        simp [slotSafeB, hen, hp]
      | some e =>
        by_cases hlt : e - 120 < dtMinSecs
        · exfalso
          have hstep : lockLoop now ((sid, info) :: rest) creds acc
              = (creds, acc, true) := by
            simp only [lockLoop, hen, hp]
            rw [if_pos hlt]
            simp
          rw [hstep] at h
          cases h
        · have hmin : dtMinSecs ≤ e - 120 := not_lt.mp hlt
          by_cases hcmp : e - 120 ≤ now
          · rcases hlsc : lockSlotCreds sid creds with ⟨creds', n, c⟩
            cases hc : c with
            | true =>
              exfalso
              have hstep : lockLoop now ((sid, info) :: rest) creds acc
                  = (creds', acc + n, true) := by
                simp only [lockLoop, hen, hp]
                rw [if_neg hlt, if_pos hcmp, hlsc, hc]
                simp
              rw [hstep] at h
              cases h
            | false =>
              rw [hc] at hlsc
              have hnohit : creds.all (fun c => !credHitB sid c) = true := by
                apply lockSlotCreds_nocrash_all sid creds
                rw [hlsc]
              have hmap := lockSlotCreds_nohit sid creds hnohit
              rw [hmap] at hlsc
              have hcreds' : creds' = creds.map (lockEntry sid) :=
                ((Prod.mk.injEq _ _ _ _).mp hlsc).1.symm
              have hstep : lockLoop now ((sid, info) :: rest) creds acc
                  = lockLoop now rest creds' (acc + n) := by
                simp only [lockLoop, hen, hp]
                rw [if_neg hlt, if_pos hcmp, hmap]
                have hn : n = creds.countP (credLockB sid) :=
                  congrArg (fun t => t.2.1) hlsc.symm
                rw [hcreds', hn]
                simp
              rw [hstep] at h
              have hrest' := ih creds' (acc + n) h
              rw [hcreds'] at hrest'
              have hrest : rest.all (slotSafeB now creds) = true := by
                rw [← all_congr' (fun q => slotSafeB_map_lockEntry now sid creds q) rest]
                exact hrest'
              refine all_cons_of ?_ hrest
              simp only [slotSafeB, hen, hp, Bool.not_true, Bool.false_or]
              exact band_intro (decide_eq_true hmin) (by rw [hnohit]; simp)
          · have hstep : lockLoop now ((sid, info) :: rest) creds acc
                = lockLoop now rest creds acc := by
              simp only [lockLoop, hen, hp]
              rw [if_neg hlt, if_neg hcmp]
              simp
            rw [hstep] at h
            refine all_cons_of ?_ (ih creds acc h)
            simp only [slotSafeB, hen, hp, Bool.not_true, Bool.false_or]
            refine band_intro (decide_eq_true hmin) ?_
            rw [decide_eq_false hcmp]
            rfl

/-- A successful (non-crashing) lock_by_slot run locks exactly the
eligible credentials and counts them. -/
lemma lock_by_slot_spec (now : Int) (s : Store) (s' : Store) (n : Nat)
    (h : lock_by_slot now s = (s', n, false)) :
    (s.slots.getD []).all (slotSafeB now s.creds) = true
      ∧ s' = { s with creds := s.creds.map (lockEntryAll now (s.slots.getD [])) }
      ∧ n = s.creds.countP (credElig now (s.slots.getD [])) := by
  unfold lock_by_slot at h
  rcases hll : lockLoop now (s.slots.getD []) s.creds 0 with ⟨creds', n', c⟩
  rw [hll] at h
  have h1 : ({ s with creds := creds' } : Store) = s' :=
    ((Prod.mk.injEq _ _ _ _).mp h).1
  have h23 := (Prod.mk.injEq _ _ _ _).mp ((Prod.mk.injEq _ _ _ _).mp h).2
  have hsafe : (s.slots.getD []).all (slotSafeB now s.creds) = true := by
    apply lockLoop_nocrash_safe now (s.slots.getD []) s.creds 0
    rw [hll]
    exact h23.2
  have hspec := lockLoop_safe now (s.slots.getD []) s.creds 0 hsafe
  rw [hll] at hspec
  have hc' : creds' = s.creds.map (lockEntryAll now (s.slots.getD [])) :=
    ((Prod.mk.injEq _ _ _ _).mp hspec).1
  have hn' : n' = 0 + s.creds.countP (credElig now (s.slots.getD [])) :=
    ((Prod.mk.injEq _ _ _ _).mp ((Prod.mk.injEq _ _ _ _).mp hspec).2).1
  refine ⟨hsafe, ?_, ?_⟩
  · rw [← h1, hc']
  · rw [← h23.1, hn', Nat.zero_add]

lemma any_map' {α β : Type} (f : α → β) (p : β → Bool) :
    ∀ l : List α, (l.map f).any p = l.any (fun x => p (f x)) := by
  intro l
  induction l with
  | nil => rfl
  | cons a t ih => simp [List.any_cons, ih]

lemma any_congr' {α : Type} {p q : α → Bool} (h : ∀ x, p x = q x) :
    ∀ l : List α, l.any p = l.any q := by
  intro l
  induction l with
  | nil => rfl
  | cons a t ih => simp [List.any_cons, ih, h a]

lemma slotClosedB_iff (now : Int) (info : SlotInfo) :
    slotClosedB now info = true ↔
      info.enabled = true ∧ ∃ ed, parse_ist (endStrOf info) = some ed ∧ ed - 120 ≤ now := by
  unfold slotClosedB
  cases hen : info.enabled with
  | false => simp
  | true =>
    cases hp : parse_ist (endStrOf info) with
    | none => simp
    | some e =>
      simp only [Bool.true_and, decide_eq_true_eq, true_and]
      constructor
      · intro hle
        exact ⟨e, rfl, hle⟩
      · rintro ⟨e', he', hle⟩
        cases he'
        exact hle

lemma closedAnyB_iff (now : Int) (slots : List (String × SlotInfo)) (b : String) :
    closedAnyB now slots b = true ↔
      ∃ info, (b, info) ∈ slots ∧ info.enabled = true ∧
        ∃ ed, parse_ist (endStrOf info) = some ed ∧ ed - 120 ≤ now := by
  unfold closedAnyB
  simp only [List.any_eq_true, Bool.and_eq_true, beq_iff_eq]
  constructor
  · rintro ⟨⟨sid, info⟩, hmem, hid, hcl⟩
    cases hid
    exact ⟨info, hmem, (slotClosedB_iff now info).mp hcl⟩
  · rintro ⟨info, hmem, hcond⟩
    exact ⟨(b, info), hmem, rfl, (slotClosedB_iff now info).mpr hcond⟩

/-- C2: a successful Locker run issues a lock patch (locked = 1) for a
credential if and only if its belongs_to_slot equals the id of some
enabled slot whose slot_end parses with now past slot_end minus the
2-minute margin, and int(locked) is 0; credentials failing any condition
are left untouched. -/
theorem locker_locks_iff_eligible (now : Int) (s : Store) (s' : Store) (n : Nat)
    (h : lock_by_slot now s = (s', n, false)) :
    s'.creds = s.creds.map (lockEntryAll now (s.slots.getD []))
      ∧ n = s.creds.countP (credElig now (s.slots.getD []))
      ∧ (∀ e : String × DbNode, credElig now (s.slots.getD []) e = false →
          lockEntryAll now (s.slots.getD []) e = e)
      ∧ (∀ (k b : String) (l : PyVal),
          credElig now (s.slots.getD []) (k, DbNode.cred b l) = true →
            lockEntryAll now (s.slots.getD []) (k, DbNode.cred b l)
              = (k, DbNode.cred b (PyVal.vInt 1)))
      ∧ (∀ (k b : String) (l : PyVal),
          credElig now (s.slots.getD []) (k, DbNode.cred b l) = true ↔
            ((∃ info, (b, info) ∈ s.slots.getD [] ∧ info.enabled = true ∧
                ∃ ed, parse_ist (endStrOf info) = some ed ∧ ed - 120 ≤ now)
              ∧ pyToInt l = some 0)) := by
  obtain ⟨_, hs', hn⟩ := lock_by_slot_spec now s s' n h
  refine ⟨by rw [hs'], hn, ?_, ?_, ?_⟩
  · exact fun e he => lockEntryAll_not_elig now _ e he
  · intro k b l he
    have hc := he
    simp only [credElig] at hc
    simp only [lockEntryAll, hc]
    rfl
  · intro k b l
    constructor
    · intro he
      have hc := he
      simp only [credElig] at hc
      have hparts := band_elim hc
      exact ⟨(closedAnyB_iff now _ b).mp hparts.1, eq_of_beq hparts.2⟩
    · rintro ⟨hcl, hl⟩
      have h1 : closedAnyB now (s.slots.getD []) b = true :=
        (closedAnyB_iff now _ b).mpr hcl
      simp [credElig, h1, hl]

/-- C2 witness: one minute before slot_end (inside the margin) the
matching unlocked credential is patched to locked 1, non-credentials are
untouched, the count is 1. -/
theorem locker_locks_iff_eligible_witness :
    (⟨some [("slot_1",
        ⟨true, some "2024-01-01 09:00:00", some "2024-01-02 09:00:00",
         some "2024-01-01 08:00:00", none⟩)], [],
      [("cred_7", DbNode.cred "slot_1" (PyVal.vInt 1)),
       ("misc", DbNode.other)]⟩ : Store).creds
      = (⟨some [("slot_1",
            ⟨true, some "2024-01-01 09:00:00", some "2024-01-02 09:00:00",
             some "2024-01-01 08:00:00", none⟩)], [],
          [("cred_7", DbNode.cred "slot_1" (PyVal.vInt 0)),
           ("misc", DbNode.other)]⟩ : Store).creds.map
          (lockEntryAll (dtToSecs ⟨2024, 1, 2, 8, 59, 0⟩)
            ((⟨some [("slot_1",
                ⟨true, some "2024-01-01 09:00:00", some "2024-01-02 09:00:00",
                 some "2024-01-01 08:00:00", none⟩)], [],
              [("cred_7", DbNode.cred "slot_1" (PyVal.vInt 0)),
               ("misc", DbNode.other)]⟩ : Store).slots.getD [])) :=
  (locker_locks_iff_eligible (dtToSecs ⟨2024, 1, 2, 8, 59, 0⟩)
    ⟨some [("slot_1",
        ⟨true, some "2024-01-01 09:00:00", some "2024-01-02 09:00:00",
         some "2024-01-01 08:00:00", none⟩)], [],
      [("cred_7", DbNode.cred "slot_1" (PyVal.vInt 0)),
       ("misc", DbNode.other)]⟩
    ⟨some [("slot_1",
        ⟨true, some "2024-01-01 09:00:00", some "2024-01-02 09:00:00",
         some "2024-01-01 08:00:00", none⟩)], [],
      [("cred_7", DbNode.cred "slot_1" (PyVal.vInt 1)),
       ("misc", DbNode.other)]⟩
    1 (by decide)).1

lemma slotSafeB_map_lockEntryAll (now : Int) (slots : List (String × SlotInfo))
    (creds : List (String × DbNode)) (q : String × SlotInfo) :
    slotSafeB now (creds.map (lockEntryAll now slots)) q = slotSafeB now creds q := by
  have hall : (creds.map (lockEntryAll now slots)).all (fun c => !credHitB q.1 c)
      = creds.all (fun c => !credHitB q.1 c) := by
    rw [all_map' (lockEntryAll now slots) (fun c => !credHitB q.1 c) creds]
    exact all_congr' (fun e => by rw [credHitB_lockEntryAll]) creds
  simp only [slotSafeB, hall]

/-- C4: the Locker is idempotent: a second run at the same instant on
the store the first (successful) run produced issues zero lock patches
and leaves the store unchanged, since locked = 1 is terminal. -/
theorem locker_idempotent (now : Int) (s s' : Store) (n : Nat)
    (h : lock_by_slot now s = (s', n, false)) :
    lock_by_slot now s' = (s', 0, false) := by
  obtain ⟨hsafe, hs', _⟩ := lock_by_slot_spec now s s' n h
  subst hs'
  have hsafe' : (s.slots.getD []).all
      (slotSafeB now (s.creds.map (lockEntryAll now (s.slots.getD [])))) = true := by
    rw [all_congr' (fun q => slotSafeB_map_lockEntryAll now (s.slots.getD []) s.creds q)]
    exact hsafe
  have hmain := lockLoop_safe now (s.slots.getD [])
      (s.creds.map (lockEntryAll now (s.slots.getD []))) 0 hsafe'
  have hmapid : (s.creds.map (lockEntryAll now (s.slots.getD []))).map
      (lockEntryAll now (s.slots.getD []))
      = s.creds.map (lockEntryAll now (s.slots.getD [])) := by
    apply map_eq_self_of
    intro e he
    rcases List.mem_map.mp he with ⟨e0, _, he0⟩
    apply lockEntryAll_not_elig
    rw [← he0]
    exact credElig_lockEntryAll now _ e0
  have hcnt : (s.creds.map (lockEntryAll now (s.slots.getD []))).countP
      (credElig now (s.slots.getD [])) = 0 := by
    apply countP_zero_of
    intro e he
    rcases List.mem_map.mp he with ⟨e0, _, he0⟩
    rw [← he0]
    exact credElig_lockEntryAll now _ e0
  rw [hmapid, hcnt] at hmain
  unfold lock_by_slot
  have hslots : ({ s with creds := s.creds.map (lockEntryAll now (s.slots.getD [])) }
      : Store).slots = s.slots := rfl
  rw [hslots]
  have hcreds : ({ s with creds := s.creds.map (lockEntryAll now (s.slots.getD [])) }
      : Store).creds = s.creds.map (lockEntryAll now (s.slots.getD [])) := rfl
  rw [hcreds, hmain]

/-- C4 witness: rerunning the Locker on the store it produced locks
nothing further. -/
theorem locker_idempotent_witness :
    lock_by_slot (dtToSecs ⟨2024, 1, 2, 8, 59, 0⟩)
      ⟨some [("slot_1",
          ⟨true, some "2024-01-01 09:00:00", some "2024-01-02 09:00:00",
           some "2024-01-01 08:00:00", none⟩)], [],
        [("cred_7", DbNode.cred "slot_1" (PyVal.vInt 1)),
         ("misc", DbNode.other)]⟩
      = (⟨some [("slot_1",
            ⟨true, some "2024-01-01 09:00:00", some "2024-01-02 09:00:00",
             some "2024-01-01 08:00:00", none⟩)], [],
          [("cred_7", DbNode.cred "slot_1" (PyVal.vInt 1)),
           ("misc", DbNode.other)]⟩, 0, false) :=
  locker_idempotent (dtToSecs ⟨2024, 1, 2, 8, 59, 0⟩)
    ⟨some [("slot_1",
        ⟨true, some "2024-01-01 09:00:00", some "2024-01-02 09:00:00",
         some "2024-01-01 08:00:00", none⟩)], [],
      [("cred_7", DbNode.cred "slot_1" (PyVal.vInt 0)),
       ("misc", DbNode.other)]⟩
    ⟨some [("slot_1",
        ⟨true, some "2024-01-01 09:00:00", some "2024-01-02 09:00:00",
         some "2024-01-01 08:00:00", none⟩)], [],
      [("cred_7", DbNode.cred "slot_1" (PyVal.vInt 1)),
       ("misc", DbNode.other)]⟩
    1 (by decide)

lemma lockSlotCreds_mem_none (sid k b : String) (l : PyVal) (hl : pyToInt l = none) :
    ∀ creds : List (String × DbNode),
      (k, DbNode.cred b l) ∈ creds →
      (k, DbNode.cred b l) ∈ (lockSlotCreds sid creds).1 := by
  intro creds
  induction creds with
  | nil => intro hmem; cases hmem
  | cons e rest ih =>
    intro hmem
    obtain ⟨k0, node0⟩ := e
    rcases hrec : lockSlotCreds sid rest with ⟨r, n, c⟩
    have htail : (k, DbNode.cred b l) ∈ rest → (k, DbNode.cred b l) ∈ r := by
      intro hm
      have := ih hm
      rw [hrec] at this
      exact this
    cases node0 with
    | other =>
      simp only [lockSlotCreds, hrec]
      rcases List.mem_cons.mp hmem with hh | ht
      · exact List.mem_cons.mpr (Or.inl hh)
      · exact List.mem_cons.mpr (Or.inr (htail ht))
    | cred b0 l0 =>
      cases hb : b0 == sid with
      | false =>
        simp only [lockSlotCreds, hb, Bool.false_eq_true, if_false, hrec]
        rcases List.mem_cons.mp hmem with hh | ht
        · exact List.mem_cons.mpr (Or.inl hh)
        · exact List.mem_cons.mpr (Or.inr (htail ht))
      | true =>
        cases hl0 : pyToInt l0 with
        | none =>
          simp only [lockSlotCreds, hb, if_true, hl0]
          exact hmem
        | some v =>
          by_cases hv : v = 0
          · subst hv
            simp only [lockSlotCreds, hb, if_true, hl0, if_pos rfl, hrec]
            rcases List.mem_cons.mp hmem with hh | ht
            · exfalso
              have hinj := (Prod.mk.injEq _ _ _ _).mp hh
              have : l = l0 := by
                cases hinj.2
                rfl
              rw [this] at hl
              rw [hl] at hl0
              cases hl0
            · exact List.mem_cons.mpr (Or.inr (htail ht))
          · simp only [lockSlotCreds, hb, if_true, hl0, if_neg hv, hrec]
            rcases List.mem_cons.mp hmem with hh | ht
            · exact List.mem_cons.mpr (Or.inl hh)
            · exact List.mem_cons.mpr (Or.inr (htail ht))

lemma lockLoop_mem_none (now : Int) (k b : String) (l : PyVal) (hl : pyToInt l = none) :
    ∀ (slots : List (String × SlotInfo)) (creds : List (String × DbNode)) (acc : Nat),
      (k, DbNode.cred b l) ∈ creds →
      (k, DbNode.cred b l) ∈ (lockLoop now slots creds acc).1 := by
  intro slots
  induction slots with
  | nil => intro creds acc hmem; exact hmem
  | cons head rest ih =>
    intro creds acc hmem
    obtain ⟨sid, info⟩ := head
    cases hen : info.enabled with
    | false =>
      have hstep : lockLoop now ((sid, info) :: rest) creds acc
          = lockLoop now rest creds acc := by
        simp [lockLoop, hen]
      rw [hstep]
      exact ih creds acc hmem
    | true =>
      cases hp : parse_ist (endStrOf info) with
      | none =>
        have hstep : lockLoop now ((sid, info) :: rest) creds acc
            = lockLoop now rest creds acc := by
          simp [lockLoop, hen, hp]
        rw [hstep]
        exact ih creds acc hmem
      | some e =>
        by_cases hlt : e - 120 < dtMinSecs
        · have hstep : lockLoop now ((sid, info) :: rest) creds acc
              = (creds, acc, true) := by
            simp only [lockLoop, hen, hp]
            rw [if_pos hlt]
            simp
          rw [hstep]
          exact hmem
        · by_cases hcmp : e - 120 ≤ now
          · rcases hlsc : lockSlotCreds sid creds with ⟨creds', n, c⟩
            have hmem' : (k, DbNode.cred b l) ∈ creds' := by
              have := lockSlotCreds_mem_none sid k b l hl creds hmem
              rw [hlsc] at this
              exact this
            cases hc : c with
            | true =>
              have hstep : lockLoop now ((sid, info) :: rest) creds acc
                  = (creds', acc + n, true) := by
                simp only [lockLoop, hen, hp]
                rw [if_neg hlt, if_pos hcmp, hlsc, hc]
                simp
              rw [hstep]
              exact hmem'
            | false =>
              have hstep : lockLoop now ((sid, info) :: rest) creds acc
                  = lockLoop now rest creds' (acc + n) := by
                simp only [lockLoop, hen, hp]
                rw [if_neg hlt, if_pos hcmp, hlsc, hc]
                simp
              rw [hstep]
              exact ih creds' (acc + n) hmem'
          · have hstep : lockLoop now ((sid, info) :: rest) creds acc
                = lockLoop now rest creds acc := by
              simp only [lockLoop, hen, hp]
              rw [if_neg hlt, if_neg hcmp]
              simp
            rw [hstep]
            exact ih creds acc hmem

lemma lockSlotCreds_crash_of_hit (sid : String) :
    ∀ creds : List (String × DbNode),
      creds.any (credHitB sid) = true →
      (lockSlotCreds sid creds).2.2 = true := by
  intro creds hany
  cases hc : (lockSlotCreds sid creds).2.2 with
  | true => rfl
  | false =>
    exfalso
    have hall := lockSlotCreds_nocrash_all sid creds hc
    rcases List.any_eq_true.mp hany with ⟨e, hmem, hhit⟩
    have := List.all_eq_true.mp hall e hmem
    rw [hhit] at this
    cases this

lemma lockLoop_crash_of_hit (now : Int) :
    ∀ (slots : List (String × SlotInfo)) (creds : List (String × DbNode)) (acc : Nat),
      (∃ p, p ∈ slots ∧ slotClosedB now p.2 = true
          ∧ creds.any (credHitB p.1) = true) →
      (lockLoop now slots creds acc).2.2 = true := by
  intro slots
  induction slots with
  | nil =>
    rintro creds acc ⟨p, hp, _⟩
    cases hp
  | cons head rest ih =>
    rintro creds acc ⟨p, hp, hcl, hany⟩
    obtain ⟨sid, info⟩ := head
    have hindRest : p ∈ rest → (lockLoop now rest creds acc).2.2 = true :=
      fun hm => ih creds acc ⟨p, hm, hcl, hany⟩
    cases hen : info.enabled with
    | false =>
      have hstep : lockLoop now ((sid, info) :: rest) creds acc
          = lockLoop now rest creds acc := by
        simp [lockLoop, hen]
      rcases List.mem_cons.mp hp with hh | ht
      · exfalso
        rw [hh] at hcl
        simp [slotClosedB, hen] at hcl
      · rw [hstep]
        exact hindRest ht
    | true =>
      cases hp2 : parse_ist (endStrOf info) with
      | none =>
        have hstep : lockLoop now ((sid, info) :: rest) creds acc
            = lockLoop now rest creds acc := by
          simp [lockLoop, hen, hp2]
        rcases List.mem_cons.mp hp with hh | ht
        · exfalso
          rw [hh] at hcl
          simp [slotClosedB, hen, hp2] at hcl
        · rw [hstep]
          exact hindRest ht
      | some e =>
        by_cases hlt : e - 120 < dtMinSecs
        · have hstep : lockLoop now ((sid, info) :: rest) creds acc
              = (creds, acc, true) := by
            simp only [lockLoop, hen, hp2]
            rw [if_pos hlt]
            simp
          rw [hstep]
        · by_cases hcmp : e - 120 ≤ now
          · rcases hlsc : lockSlotCreds sid creds with ⟨creds', n, c⟩
            cases hc : c with
            | true =>
              have hstep : lockLoop now ((sid, info) :: rest) creds acc
                  = (creds', acc + n, true) := by
                simp only [lockLoop, hen, hp2]
                rw [if_neg hlt, if_pos hcmp, hlsc, hc]
                simp
              rw [hstep]
            | false =>
              rw [hc] at hlsc
              have hnohit : creds.all (fun c => !credHitB sid c) = true := by
                apply lockSlotCreds_nocrash_all sid creds
                rw [hlsc]
              have hmap := lockSlotCreds_nohit sid creds hnohit
              rw [hmap] at hlsc
              have hcreds' : creds' = creds.map (lockEntry sid) :=
                ((Prod.mk.injEq _ _ _ _).mp hlsc).1.symm
              have hn : n = creds.countP (credLockB sid) :=
                ((Prod.mk.injEq _ _ _ _).mp ((Prod.mk.injEq _ _ _ _).mp hlsc).2).1.symm
              have hstep : lockLoop now ((sid, info) :: rest) creds acc
                  = lockLoop now rest (creds.map (lockEntry sid))
                      (acc + creds.countP (credLockB sid)) := by
                simp only [lockLoop, hen, hp2]
                rw [if_neg hlt, if_pos hcmp, hmap]
                simp
              rw [hstep]
              rcases List.mem_cons.mp hp with hh | ht
              · exfalso
                have hpsid : p.1 = sid := by rw [hh]
                rw [hpsid] at hany
                rcases List.any_eq_true.mp hany with ⟨c0, hc0, hhit0⟩
                have := List.all_eq_true.mp hnohit c0 hc0
                rw [hhit0] at this
                cases this
              · apply ih
                refine ⟨p, ht, hcl, ?_⟩
                rw [any_map' (lockEntry sid) (credHitB p.1) creds]
                rw [any_congr' (fun x => credHitB_lockEntry sid p.1 x) creds]
                exact hany
          · have hstep : lockLoop now ((sid, info) :: rest) creds acc
                = lockLoop now rest creds acc := by
              simp only [lockLoop, hen, hp2]
              rw [if_neg hlt, if_neg hcmp]
              simp
            rcases List.mem_cons.mp hp with hh | ht
            · exfalso
              rw [hh] at hcl
              simp only [slotClosedB, hen, hp2, Bool.true_and] at hcl
              rw [decide_eq_false hcmp] at hcl
              cases hcl
            · rw [hstep]
              exact hindRest ht

/-- C5 counterexample: at a concrete store whose first matching credential
has locked = "abc", the Locker crashes (the int() ValueError propagates),
locks nothing — not even the eligible credential after it — instead of
treating "abc" as 0 and continuing. -/
theorem locker_nonnumeric_locked_cex :
    lock_by_slot (dtToSecs ⟨2024, 1, 2, 9, 30, 0⟩)
      ⟨some [("slot_1",
          ⟨true, some "2024-01-01 09:00:00", some "2024-01-02 09:00:00",
           some "2024-01-01 08:00:00", none⟩)], [],
        [("c1", DbNode.cred "slot_1" (PyVal.vStr "abc")),
         ("c2", DbNode.cred "slot_1" (PyVal.vInt 0))]⟩
      = (⟨some [("slot_1",
            ⟨true, some "2024-01-01 09:00:00", some "2024-01-02 09:00:00",
             some "2024-01-01 08:00:00", none⟩)], [],
          [("c1", DbNode.cred "slot_1" (PyVal.vStr "abc")),
           ("c2", DbNode.cred "slot_1" (PyVal.vInt 0))]⟩, 0, true) := by
  decide

/-- C5 amended: a credential of a closed enabled slot whose locked value
is non-numeric makes int() raise; the exception propagates (the run
crashes) and the credential is never treated as 0 nor locked. -/
theorem locker_nonnumeric_locked_crashes (now : Int) (s : Store)
    (k b : String) (l : PyVal)
    (hmem : (k, DbNode.cred b l) ∈ s.creds) (hnum : pyToInt l = none)
    (hclosed : ∃ info, (b, info) ∈ s.slots.getD [] ∧ slotClosedB now info = true) :
    (lock_by_slot now s).2.2 = true
      ∧ (k, DbNode.cred b l) ∈ (lock_by_slot now s).1.creds := by
  rcases hclosed with ⟨info, hbmem, hbcl⟩
  unfold lock_by_slot
  rcases hll : lockLoop now (s.slots.getD []) s.creds 0 with ⟨creds', n, c⟩
  constructor
  · show c = true
    have := lockLoop_crash_of_hit now (s.slots.getD []) s.creds 0
        ⟨(b, info), hbmem, hbcl,
         List.any_eq_true.mpr ⟨(k, DbNode.cred b l), hmem, by simp [credHitB, hnum]⟩⟩
    rw [hll] at this
    exact this
  · show (k, DbNode.cred b l) ∈ creds'
    have := lockLoop_mem_none now k b l hnum (s.slots.getD []) s.creds 0 hmem
    rw [hll] at this
    exact this

/-- C5 amended witness: the concrete crash instance, via the amended
theorem. -/
theorem locker_nonnumeric_locked_crashes_witness :
    (lock_by_slot (dtToSecs ⟨2024, 1, 2, 9, 30, 0⟩)
        ⟨some [("slot_1",
            ⟨true, some "2024-01-01 09:00:00", some "2024-01-02 09:00:00",
             some "2024-01-01 08:00:00", none⟩)], [],
          [("c1", DbNode.cred "slot_1" (PyVal.vStr "abc")),
           ("c2", DbNode.cred "slot_1" (PyVal.vInt 0))]⟩).2.2 = true
      ∧ ("c1", DbNode.cred "slot_1" (PyVal.vStr "abc"))
          ∈ (lock_by_slot (dtToSecs ⟨2024, 1, 2, 9, 30, 0⟩)
              ⟨some [("slot_1",
                  ⟨true, some "2024-01-01 09:00:00", some "2024-01-02 09:00:00",
                   some "2024-01-01 08:00:00", none⟩)], [],
                [("c1", DbNode.cred "slot_1" (PyVal.vStr "abc")),
                 ("c2", DbNode.cred "slot_1" (PyVal.vInt 0))]⟩).1.creds :=
  locker_nonnumeric_locked_crashes (dtToSecs ⟨2024, 1, 2, 9, 30, 0⟩)
    ⟨some [("slot_1",
        ⟨true, some "2024-01-01 09:00:00", some "2024-01-02 09:00:00",
         some "2024-01-01 08:00:00", none⟩)], [],
      [("c1", DbNode.cred "slot_1" (PyVal.vStr "abc")),
       ("c2", DbNode.cred "slot_1" (PyVal.vInt 0))]⟩
    "c1" "slot_1" (PyVal.vStr "abc")
    (by decide) (by decide)
    ⟨⟨true, some "2024-01-01 09:00:00", some "2024-01-02 09:00:00",
      some "2024-01-01 08:00:00", none⟩, by decide, by decide⟩

/-! ## Shifter lemmas -/

/-- A slot is due for a shift: enabled, last_update parses, and at least
24 hours have elapsed. -/
def dueB (now : Int) (info : SlotInfo) : Bool :=
  info.enabled &&
    (match parse_ist (luStrOf info) with
     | none => false
     | some L => decide (86400 ≤ now - L))

lemma luDtOf_parse (now : Int) (info : SlotInfo) (L : Int)
    (h : parse_ist (luStrOf info) = some L) : luDtOf now info = L := by
  have hne : ¬ (luStrOf info = "") := by
    intro hcon
    rw [hcon, parse_ist_empty] at h
    cases h
  unfold luDtOf
  rw [if_neg hne, h]

lemma dueB_iff (now : Int) (info : SlotInfo) :
    dueB now info = true ↔
      info.enabled = true
        ∧ ∃ L, parse_ist (luStrOf info) = some L ∧ 86400 ≤ now - L := by
  unfold dueB
  cases hen : info.enabled with
  | false => simp
  | true =>
    cases hp : parse_ist (luStrOf info) with
    | none => simp
    | some L =>
      simp only [Bool.true_and, decide_eq_true_eq, true_and]
      constructor
      · intro hle
        exact ⟨L, rfl, hle⟩
      · rintro ⟨L', hL', hle⟩
        cases hL'
        exact hle

lemma shiftSlot_not_due (now : Int) (info : SlotInfo)
    (h : dueB now info = false) : shiftSlot now info = some (info, false) := by
  unfold shiftSlot
  cases hen : info.enabled with
  | false => rw [if_pos (show (!false) = true from rfl)]
  | true =>
    rw [if_neg (show ¬ ((!true) = true) by simp)]
    rw [if_pos]
    unfold dueB at h
    rw [hen] at h
    simp only [Bool.true_and] at h
    cases hp : parse_ist (luStrOf info) with
    | none =>
      unfold luDtOf
      by_cases hne : luStrOf info = ""
      · rw [if_pos hne]
        omega
      · rw [if_neg hne, hp]
        show now - now < 86400
        omega
    | some L =>
      rw [hp] at h
      rw [luDtOf_parse now info L hp]
      simpa using h

lemma shiftSlot_due (now : Int) (info : SlotInfo)
    (h : dueB now info = true) : shiftSlot now info = shiftBody now info := by
  rcases (dueB_iff now info).mp h with ⟨hen, L, hL, hle⟩
  unfold shiftSlot
  rw [if_neg (by rw [hen]; simp)]
  rw [if_neg]
  rw [luDtOf_parse now info L hL]
  omega

lemma shiftBody_flag (now : Int) (info info' : SlotInfo) (sh : Bool)
    (h : shiftBody now info = some (info', sh)) : sh = true := by
  unfold shiftBody at h
  split at h
  · exact Option.noConfusion h
  · split at h
    · exact (((Prod.mk.injEq _ _ _ _).mp (Option.some.inj h)).2).symm
    · exact Option.noConfusion h

lemma shiftSlot_flag (now : Int) (info : SlotInfo) (info' : SlotInfo) (sh : Bool)
    (h : shiftSlot now info = some (info', sh)) : sh = dueB now info := by
  cases hd : dueB now info with
  | false =>
    rw [shiftSlot_not_due now info hd] at h
    exact ((Prod.mk.injEq _ _ _ _).mp (Option.some.inj h)).2.symm
  | true =>
    rw [shiftSlot_due now info hd] at h
    exact shiftBody_flag now info info' sh h

/-- Total version of shiftSlot for stating the no-crash loop result. -/
def shiftSlotD (now : Int) (info : SlotInfo) : SlotInfo × Bool :=
  (shiftSlot now info).getD (info, false)

lemma computeShifts_spec (now : Int) :
    ∀ m : List (String × SlotInfo),
      (computeShifts now m).2.2 = false →
      computeShifts now m
          = (m.map (fun p => (p.1, (shiftSlotD now p.2).1)),
             m.any (fun p => (shiftSlotD now p.2).2), false)
        ∧ ∀ p ∈ m, (shiftSlot now p.2).isSome = true := by
  intro m
  induction m with
  | nil => intro _; exact ⟨rfl, by intro p hp; cases hp⟩
  | cons head rest ih =>
    intro h
    obtain ⟨sid, info⟩ := head
    cases hs : shiftSlot now info with
    | none =>
      exfalso
      simp only [computeShifts, hs] at h
      cases h
    | some pr =>
      obtain ⟨info', sh⟩ := pr
      rcases hrec : computeShifts now rest with ⟨rest', anyR, cr⟩
      have hstep : computeShifts now ((sid, info) :: rest)
          = ((sid, info') :: rest', sh || anyR, cr) := by
        simp only [computeShifts, hs, hrec]
      rw [hstep] at h ⊢
      simp only at h
      have hcr : cr = false := h
      have ihres := ih (by rw [hrec]; exact hcr)
      rw [hrec] at ihres
      have h1 := (Prod.mk.injEq _ _ _ _).mp ihres.1
      have h2 := (Prod.mk.injEq _ _ _ _).mp h1.2
      have hD : shiftSlotD now info = (info', sh) := by simp [shiftSlotD, hs]
      constructor
      · rw [List.map_cons, List.any_cons, hD, h1.1, h2.1, hcr]
      · intro p hp
        rcases List.mem_cons.mp hp with hh | ht
        · rw [hh]
          simp [hs]
        · exact ihres.2 p ht

lemma computeShifts_crash_of_mem (now : Int) :
    ∀ (m : List (String × SlotInfo)) (sid : String) (info : SlotInfo),
      (sid, info) ∈ m → shiftSlot now info = none →
      (computeShifts now m).2.2 = true := by
  intro m
  induction m with
  | nil => intro sid info hmem _; cases hmem
  | cons head rest ih =>
    intro sid info hmem hnone
    obtain ⟨sid0, info0⟩ := head
    rcases List.mem_cons.mp hmem with hh | ht
    · have : info0 = info := ((Prod.mk.injEq _ _ _ _).mp hh.symm).2
      rw [this]
      simp [computeShifts, hnone]
    · cases hs : shiftSlot now info0 with
      | none => simp [computeShifts, hs]
      | some pr =>
        obtain ⟨info0', sh⟩ := pr
        rcases hrec : computeShifts now rest with ⟨rest', anyR, cr⟩
        have : cr = true := by
          have := ih sid info ht hnone
          rw [hrec] at this
          exact this
        simp [computeShifts, hs, hrec, this]

lemma addTd_some (t d x : Int) (h : addTd t d = some x) : x = t + d := by
  unfold addTd at h
  by_cases hc : dtMinSecs ≤ t + d ∧ t + d ≤ dtMaxSecs
  · rw [if_pos hc] at h
    exact (Option.some.inj h).symm
  · rw [if_neg hc] at h
    cases h

lemma freqDelta_ge (info : SlotInfo) : 86400 ≤ freqDelta info := by
  unfold freqDelta
  by_cases h1 : strLower (info.frequency.getD "daily") = "3day"
  · rw [if_pos h1]
    decide
  · rw [if_neg h1]
    by_cases h2 : strLower (info.frequency.getD "daily") = "weekly"
    · rw [if_pos h2]
      decide
    · rw [if_neg h2]

/-- The 9999-12-31 09:00:00 sentinel default overflows datetime.max under
any recurrence delta. -/
lemma addTd_sentinel (d : Int) (hd : 86400 ≤ d) :
    addTd (dtToSecs ⟨9999, 12, 31, 9, 0, 0⟩) d = none := by
  unfold addTd
  rw [if_neg]
  rintro ⟨_, hle⟩
  have hover : dtMaxSecs < dtToSecs ⟨9999, 12, 31, 9, 0, 0⟩ + 86400 := by decide
  omega

lemma lock_by_slot_slots (t : Int) (s : Store) :
    (lock_by_slot t s).1.slots = s.slots := by
  unfold lock_by_slot
  rcases hll : lockLoop t (s.slots.getD []) s.creds 0 with ⟨c', n, f⟩
  rfl

lemma lock_by_slot_claims (t : Int) (s : Store) :
    (lock_by_slot t s).1.claims = s.claims := by
  unfold lock_by_slot
  rcases hll : lockLoop t (s.slots.getD []) s.creds 0 with ⟨c', n, f⟩
  rfl

lemma reset_account_claims_slots (t : Int) (w : Bool) (s : Store) :
    (reset_account_claims t w s).slots = s.slots := by
  unfold reset_account_claims
  by_cases hnil : s.slots.getD [] = []
  · rw [if_pos hnil]
  · rw [if_neg hnil]
    rcases hloop : reconcileLoop t (s.slots.getD []) s.claims false with ⟨claims', dirty⟩
    simp only [hloop]
    by_cases hd : (dirty && w) = true
    · rw [if_pos hd]
    · rw [if_neg hd]

lemma reset_account_claims_creds (t : Int) (w : Bool) (s : Store) :
    (reset_account_claims t w s).creds = s.creds := by
  unfold reset_account_claims
  by_cases hnil : s.slots.getD [] = []
  · rw [if_pos hnil]
  · rw [if_neg hnil]
    rcases hloop : reconcileLoop t (s.slots.getD []) s.claims false with ⟨claims', dirty⟩
    simp only [hloop]
    by_cases hd : (dirty && w) = true
    · rw [if_pos hd]
    · rw [if_neg hd]

lemma shiftBody_eq_of_parses (now : Int) (info : SlotInfo) (t u : Int)
    (hps : parse_ist (startStrOf info) = some t)
    (hpe : parse_ist (endStrOf info) = some u)
    (pr : SlotInfo × Bool)
    (h : shiftBody now info = some pr) :
    pr = ({ info with
              slot_start := some (format_ist (t + freqDelta info)),
              slot_end := some (format_ist (u + freqDelta info)),
              last_update := some (format_ist now) }, true) := by
  have h1 : startDtOf now info = t := by
    unfold startDtOf
    rw [hps]
  have h2 : endDtOf now info = some u := by
    unfold endDtOf
    rw [hpe]
  unfold shiftBody at h
  rw [h2, h1] at h
  have h' : (match addTd t (freqDelta info), addTd u (freqDelta info) with
      | some ns, some ne =>
        some (({ info with
                   slot_start := some (format_ist ns),
                   slot_end := some (format_ist ne),
                   last_update := some (format_ist now) } : SlotInfo), true)
      | _, _ => none) = some pr := h
  split at h'
  · rename_i ns ne hA hB
    have hns : ns = t + freqDelta info := addTd_some _ _ _ hA
    have hne : ne = u + freqDelta info := addTd_some _ _ _ hB
    subst hns
    subst hne
    exact (Option.some.inj h').symm
  · exact Option.noConfusion h'

lemma any_congr_mem {α : Type} {p q : α → Bool} :
    ∀ l : List α, (∀ x ∈ l, p x = q x) → l.any p = l.any q := by
  intro l
  induction l with
  | nil => intro _; rfl
  | cons a t ih =>
    intro h
    simp [List.any_cons, h a (by simp), ih (fun x hx => h x (by simp [hx]))]

/-- Whenever the slot map is present, a composite run marks the
reconciler as invoked and its claims component is exactly the
reconciler's output at the reconciler's own instant, in every branch
(crash, no due slot, write failure, write success plus lock). -/
lemma update_recRan_claims (now nowRec nowLock : Int) (recW pOk : Bool)
    (s : Store) (m : List (String × SlotInfo)) (hs : s.slots = some m) :
    (update_slot_times_multi now nowRec nowLock recW pOk s).recRan = true
      ∧ (update_slot_times_multi now nowRec nowLock recW pOk s).store.claims
          = (reset_account_claims nowRec recW s).claims := by
  unfold update_slot_times_multi
  rw [hs]
  rcases hcs : computeShifts now m with ⟨m', anyS, cr⟩
  simp only [hcs]
  cases cr with
  | true => exact ⟨rfl, rfl⟩
  | false =>
    cases anyS with
    | false => exact ⟨rfl, rfl⟩
    | true =>
      cases pOk with
      | false => exact ⟨rfl, rfl⟩
      | true =>
        rcases hlb : lock_by_slot nowLock
            { reset_account_claims nowRec recW s with slots := some m' } with ⟨s3, n, lc⟩
        simp only [hlb]
        refine ⟨rfl, ?_⟩
        have := lock_by_slot_claims nowLock
            { reset_account_claims nowRec recW s with slots := some m' }
        rw [hlb] at this
        exact this

/-- C7 counterexample: with no slots node in the store, the run returns
before ever invoking the Reconciler (recRan = false) and the stale claim
survives, contradicting the unconditional-invocation claim. -/
theorem shifter_skips_reconciler_cex :
    update_slot_times_multi 0 0 0 true true ⟨none, [("u1", ["slot_1"])], []⟩
      = ⟨⟨none, [("u1", ["slot_1"])], []⟩, false, false, false, false⟩ := by
  decide

/-- C7 amended: the Reconciler is invoked exactly when the settings read
succeeds and yields a slots map — after that read, but before any slot is
examined (its claim decisions are unaffected by any shift or lock
outcome); when the read fails, is empty, or lacks a slots node, the run
returns at once without invoking it. -/
theorem reconciler_invoked_iff_slot_map (now nowRec nowLock : Int)
    (recW pOk : Bool) (s : Store) :
    (s.slots = none →
        update_slot_times_multi now nowRec nowLock recW pOk s
          = ⟨s, false, false, false, false⟩)
      ∧ (∀ m, s.slots = some m →
          (update_slot_times_multi now nowRec nowLock recW pOk s).recRan = true
            ∧ (update_slot_times_multi now nowRec nowLock recW pOk s).store.claims
                = (reset_account_claims nowRec recW s).claims) := by
  constructor
  · intro hn
    unfold update_slot_times_multi
    rw [hn]
  · intro m hs
    exact update_recRan_claims now nowRec nowLock recW pOk s m hs

/-- C7 amended witness: with a slots node present but no due slot, the
reconciler still runs and removes the expired claim. -/
theorem reconciler_invoked_iff_slot_map_witness :
    (update_slot_times_multi (dtToSecs ⟨2024, 1, 5, 10, 1, 0⟩)
        (dtToSecs ⟨2024, 1, 5, 10, 1, 0⟩) (dtToSecs ⟨2024, 1, 5, 10, 1, 0⟩) true true
        ⟨some [("slot_1",
            ⟨true, some "2024-01-05 08:00:00", some "2024-01-05 10:00:00",
             some "2024-01-05 09:30:00", none⟩)],
         [("u1", ["slot_1"])], []⟩).recRan = true
      ∧ (update_slot_times_multi (dtToSecs ⟨2024, 1, 5, 10, 1, 0⟩)
          (dtToSecs ⟨2024, 1, 5, 10, 1, 0⟩) (dtToSecs ⟨2024, 1, 5, 10, 1, 0⟩) true true
          ⟨some [("slot_1",
              ⟨true, some "2024-01-05 08:00:00", some "2024-01-05 10:00:00",
               some "2024-01-05 09:30:00", none⟩)],
           [("u1", ["slot_1"])], []⟩).store.claims
        = (reset_account_claims (dtToSecs ⟨2024, 1, 5, 10, 1, 0⟩) true
            ⟨some [("slot_1",
                ⟨true, some "2024-01-05 08:00:00", some "2024-01-05 10:00:00",
                 some "2024-01-05 09:30:00", none⟩)],
             [("u1", ["slot_1"])], []⟩).claims :=
  (reconciler_invoked_iff_slot_map (dtToSecs ⟨2024, 1, 5, 10, 1, 0⟩)
      (dtToSecs ⟨2024, 1, 5, 10, 1, 0⟩) (dtToSecs ⟨2024, 1, 5, 10, 1, 0⟩) true true
      ⟨some [("slot_1",
          ⟨true, some "2024-01-05 08:00:00", some "2024-01-05 10:00:00",
           some "2024-01-05 09:30:00", none⟩)],
       [("u1", ["slot_1"])], []⟩).2
    [("slot_1",
      ⟨true, some "2024-01-05 08:00:00", some "2024-01-05 10:00:00",
       some "2024-01-05 09:30:00", none⟩)] rfl

/-- C9 counterexample: the composite run samples now separately in the
Shifter and the Reconciler; with the Reconciler's instant 90 seconds
later than the Shifter's, a claim is removed that a single-instant run
would keep, so the run is not a function of one shared instant. -/
theorem now_sampled_per_function_cex :
    update_slot_times_multi (dtToSecs ⟨2024, 1, 5, 9, 59, 0⟩)
        (dtToSecs ⟨2024, 1, 5, 10, 0, 30⟩) (dtToSecs ⟨2024, 1, 5, 9, 59, 0⟩) true true
        ⟨some [("slot_1",
            ⟨true, some "2024-01-05 08:00:00", some "2024-01-05 10:00:00",
             some "2024-01-05 09:00:00", none⟩)],
         [("u1", ["slot_1"])], []⟩
      ≠ update_slot_times_multi (dtToSecs ⟨2024, 1, 5, 9, 59, 0⟩)
          (dtToSecs ⟨2024, 1, 5, 9, 59, 0⟩) (dtToSecs ⟨2024, 1, 5, 9, 59, 0⟩) true true
          ⟨some [("slot_1",
              ⟨true, some "2024-01-05 08:00:00", some "2024-01-05 10:00:00",
               some "2024-01-05 09:00:00", none⟩)],
           [("u1", ["slot_1"])], []⟩ := by
  decide

/-- C9 amended: each of the three functions samples now once at its own
start (the model threads three instants); all claim-removal decisions
within one run are made against the Reconciler's instant alone — the
claims component of the result is independent of the Shifter's instant. -/
theorem claims_use_reconciler_instant (tS tS' tR tL : Int) (recW pOk : Bool)
    (s : Store) :
    (update_slot_times_multi tS tR tL recW pOk s).store.claims
      = (update_slot_times_multi tS' tR tL recW pOk s).store.claims := by
  cases hs : s.slots with
  | none =>
    unfold update_slot_times_multi
    rw [hs]
  | some m =>
    rw [(update_recRan_claims tS tR tL recW pOk s m hs).2,
        (update_recRan_claims tS' tR tL recW pOk s m hs).2]

/-- The slots component of a completed (non-crashing) composite run:
the shifted map when some slot was due and the patch succeeded, the
original map otherwise. -/
lemma update_slots_cases (now nowRec nowLock : Int) (recW : Bool)
    (s : Store) (m : List (String × SlotInfo)) (hs : s.slots = some m)
    (hnc : (computeShifts now m).2.2 = false) :
    ∃ m'', (update_slot_times_multi now nowRec nowLock recW true s).store.slots = some m''
      ∧ ((m.any (fun p => (shiftSlotD now p.2).2) = true
            → m'' = m.map (fun p => (p.1, (shiftSlotD now p.2).1)))
          ∧ (m.any (fun p => (shiftSlotD now p.2).2) = false → m'' = m)) := by
  obtain ⟨hceq, _⟩ := computeShifts_spec now m hnc
  unfold update_slot_times_multi
  rw [hs]
  simp only [hceq]
  cases hany : m.any (fun p => (shiftSlotD now p.2).2) with
  | true =>
    rcases hlb : lock_by_slot nowLock
        { reset_account_claims nowRec recW s
            with slots := some (m.map (fun p => (p.1, (shiftSlotD now p.2).1))) }
        with ⟨s3, n, lc⟩
    refine ⟨m.map (fun p => (p.1, (shiftSlotD now p.2).1)), ?_, fun _ => rfl,
            fun hcon => Bool.noConfusion hcon⟩
    rw [if_pos (show true = true from rfl)]
    simp only [hlb]
    have := lock_by_slot_slots nowLock
        { reset_account_claims nowRec recW s
            with slots := some (m.map (fun p => (p.1, (shiftSlotD now p.2).1))) }
    rw [hlb] at this
    exact this
  | false =>
    refine ⟨m, ?_, fun hcon => Bool.noConfusion hcon, fun _ => rfl⟩
    rw [if_neg (fun h => Bool.noConfusion h)]
    show (reset_account_claims nowRec recW s).slots = some m
    rw [reset_account_claims_slots, hs]

/-- C1: in a completed Shifter run with a successful write, every enabled
slot whose last_update parses at least 24 hours before now appears in the
written map with slot_start and slot_end advanced by exactly the
recurrence delta of its frequency and last_update stamped to now, while
every slot whose last_update parses less than 24 hours before now appears
unchanged. -/
theorem shifter_advances_due_slots (now nowRec nowLock : Int) (recW : Bool)
    (s : Store) (m : List (String × SlotInfo)) (sid : String) (info : SlotInfo)
    (hs : s.slots = some m)
    (hnc : (computeShifts now m).2.2 = false)
    (hmem : (sid, info) ∈ m) :
    (∀ L t u : Int,
        info.enabled = true →
        parse_ist (luStrOf info) = some L → 86400 ≤ now - L →
        parse_ist (startStrOf info) = some t →
        parse_ist (endStrOf info) = some u →
        ∃ m'', (update_slot_times_multi now nowRec nowLock recW true s).store.slots
            = some m''
          ∧ (sid, { info with
                      slot_start := some (format_ist (t + freqDelta info)),
                      slot_end := some (format_ist (u + freqDelta info)),
                      last_update := some (format_ist now) }) ∈ m'')
      ∧ (∀ L : Int, parse_ist (luStrOf info) = some L → now - L < 86400 →
          ∃ m'', (update_slot_times_multi now nowRec nowLock recW true s).store.slots
              = some m''
            ∧ (sid, info) ∈ m'') := by
  obtain ⟨hceq, hsome⟩ := computeShifts_spec now m hnc
  obtain ⟨m'', hm'', hiftrue, hiffalse⟩ :=
    update_slots_cases now nowRec nowLock recW s m hs hnc
  constructor
  · intro L t u hen hL hdue hps hpe
    have hd : dueB now info = true :=
      (dueB_iff now info).mpr ⟨hen, L, hL, hdue⟩
    have hsx := hsome (sid, info) hmem
    rcases hx : shiftSlot now info with _ | pr
    · rw [hx] at hsx
      cases hsx
    · have hsh : pr.2 = dueB now info := shiftSlot_flag now info pr.1 pr.2 (by rw [hx])
      have hbody : shiftBody now info = some pr := by
        rw [← shiftSlot_due now info hd, hx]
      have hpr := shiftBody_eq_of_parses now info t u hps hpe pr hbody
      have hany : m.any (fun p => (shiftSlotD now p.2).2) = true := by
        apply List.any_eq_true.mpr
        refine ⟨(sid, info), hmem, ?_⟩
        show (shiftSlotD now info).2 = true
        have hQ : (shiftSlotD now info).2 = pr.2 := by simp [shiftSlotD, hx]
        rw [hQ, hsh]
        exact hd
      refine ⟨m'', hm'', ?_⟩
      rw [hiftrue hany]
      refine List.mem_map.mpr ⟨(sid, info), hmem, ?_⟩
      show ((sid, info).1, (shiftSlotD now (sid, info).2).1) = _
      have h1 : (shiftSlotD now info).1
          = { info with
                slot_start := some (format_ist (t + freqDelta info)),
                slot_end := some (format_ist (u + freqDelta info)),
                last_update := some (format_ist now) } := by
        have hQ : shiftSlotD now info = pr := by simp [shiftSlotD, hx]
        rw [hQ, hpr]
      show (sid, (shiftSlotD now info).1) = _
      rw [h1]
  · intro L hL hlt
    have hd : dueB now info = false := by
      unfold dueB
      simp only [hL]
      have : decide (86400 ≤ now - L) = false := decide_eq_false (by omega)
      rw [this]
      simp
    have hD : shiftSlotD now info = (info, false) := by
      simp [shiftSlotD, shiftSlot_not_due now info hd]
    cases hany : m.any (fun p => (shiftSlotD now p.2).2) with
    | true =>
      refine ⟨m'', hm'', ?_⟩
      rw [hiftrue hany]
      refine List.mem_map.mpr ⟨(sid, info), hmem, ?_⟩
      show ((sid, info).1, (shiftSlotD now (sid, info).2).1) = (sid, info)
      rw [hD]
    | false =>
      refine ⟨m'', hm'', ?_⟩
      rw [hiffalse hany]
      exact hmem

/-- C1 witness: the spec's worked example; a daily slot due at
2024-01-02 09:30:00 is advanced by one day with last_update stamped. -/
theorem shifter_advances_due_slots_witness :
    ∃ m'', (update_slot_times_multi (dtToSecs ⟨2024, 1, 2, 9, 30, 0⟩)
        (dtToSecs ⟨2024, 1, 2, 9, 30, 0⟩) (dtToSecs ⟨2024, 1, 2, 9, 30, 0⟩) true true
        ⟨some [("slot_1",
            ⟨true, some "2024-01-01 09:00:00", some "2024-01-02 09:00:00",
             some "2024-01-01 08:00:00", none⟩)], [], []⟩).store.slots = some m''
      ∧ ("slot_1",
          (⟨true, some "2024-01-02 09:00:00", some "2024-01-03 09:00:00",
            some "2024-01-02 09:30:00", none⟩ : SlotInfo)) ∈ m'' :=
  (shifter_advances_due_slots (dtToSecs ⟨2024, 1, 2, 9, 30, 0⟩)
      (dtToSecs ⟨2024, 1, 2, 9, 30, 0⟩) (dtToSecs ⟨2024, 1, 2, 9, 30, 0⟩) true
      ⟨some [("slot_1",
          ⟨true, some "2024-01-01 09:00:00", some "2024-01-02 09:00:00",
           some "2024-01-01 08:00:00", none⟩)], [], []⟩
      [("slot_1",
        ⟨true, some "2024-01-01 09:00:00", some "2024-01-02 09:00:00",
         some "2024-01-01 08:00:00", none⟩)]
      "slot_1"
      ⟨true, some "2024-01-01 09:00:00", some "2024-01-02 09:00:00",
       some "2024-01-01 08:00:00", none⟩
      rfl (by decide) (by decide)).1
    (dtToSecs ⟨2024, 1, 1, 8, 0, 0⟩) (dtToSecs ⟨2024, 1, 1, 9, 0, 0⟩)
    (dtToSecs ⟨2024, 1, 2, 9, 0, 0⟩)
    rfl (by decide) (by decide) (by decide) (by decide)

/-- C6 counterexample: a due slot with a missing slot_start does not get
the today-09:00 fallback: the sentinel default 9999-12-31 09:00:00 parses,
the shift overflows datetime.max, and the whole run crashes with the slot
map unchanged. -/
theorem shifter_missing_start_no_fallback_cex :
    update_slot_times_multi (dtToSecs ⟨2024, 1, 5, 10, 0, 0⟩)
        (dtToSecs ⟨2024, 1, 5, 10, 0, 0⟩) (dtToSecs ⟨2024, 1, 5, 10, 0, 0⟩) true true
        ⟨some [("slot_1",
            ⟨true, none, some "2024-01-02 09:00:00",
             some "2024-01-01 08:00:00", none⟩)], [], []⟩
      = ⟨⟨some [("slot_1",
            ⟨true, none, some "2024-01-02 09:00:00",
             some "2024-01-01 08:00:00", none⟩)], [], []⟩,
         true, false, false, true⟩ := by
  decide

/-- C6 amended: for a due slot, only a present-but-unparseable slot_start
or slot_end gets the deterministic fallback (today 09:00, resp. the
effective start + 1 day) before the frequency shift; a missing
slot_start or slot_end instead defaults to the sentinel string
9999-12-31 09:00:00, whose shift overflows the datetime range and
crashes the whole run, leaving the store unwritten. -/
theorem shifter_fallback_behaviour (now nowRec nowLock : Int) (recW pOk : Bool)
    (info : SlotInfo) (L : Int)
    (hen : info.enabled = true)
    (hlu : parse_ist (luStrOf info) = some L)
    (hdue : 86400 ≤ now - L) :
    ((info.slot_start = none ∨ info.slot_end = none) → shiftSlot now info = none)
      ∧ (∀ (s : Store) (m : List (String × SlotInfo)) (sid : String),
          s.slots = some m → (sid, info) ∈ m → shiftSlot now info = none →
          (update_slot_times_multi now nowRec nowLock recW pOk s).crashed = true)
      ∧ (∀ (sstr estr : String) (u ns nu : Int),
          info.slot_start = some sstr → parse_ist sstr = none →
          info.slot_end = some estr → parse_ist estr = some u →
          addTd (replaceHour9 now) (freqDelta info) = some ns →
          addTd u (freqDelta info) = some nu →
          shiftSlot now info
            = some ({ info with
                        slot_start := some (format_ist ns),
                        slot_end := some (format_ist nu),
                        last_update := some (format_ist now) }, true))
      ∧ (∀ (sstr estr : String) (t fe ns nu : Int),
          info.slot_start = some sstr → parse_ist sstr = some t →
          info.slot_end = some estr → parse_ist estr = none →
          addTd t 86400 = some fe →
          addTd t (freqDelta info) = some ns →
          addTd fe (freqDelta info) = some nu →
          shiftSlot now info
            = some ({ info with
                        slot_start := some (format_ist ns),
                        slot_end := some (format_ist nu),
                        last_update := some (format_ist now) }, true)) := by
  have hd : dueB now info = true := (dueB_iff now info).mpr ⟨hen, L, hlu, hdue⟩
  have hsb : shiftSlot now info = shiftBody now info := shiftSlot_due now info hd
  have hsentinel : parse_ist "9999-12-31 09:00:00"
      = some (dtToSecs ⟨9999, 12, 31, 9, 0, 0⟩) := by decide
  refine ⟨?_, ?_, ?_, ?_⟩
  · rintro (hms | hme)
    · have hss : startStrOf info = "9999-12-31 09:00:00" := by
        unfold startStrOf
        rw [hms]
        rfl
      have hsd : startDtOf now info = dtToSecs ⟨9999, 12, 31, 9, 0, 0⟩ := by
        unfold startDtOf
        rw [hss, hsentinel]
      rw [hsb]
      unfold shiftBody
      cases hpe : parse_ist (endStrOf info) with
      | some u =>
        have hend : endDtOf now info = some u := by
          unfold endDtOf
          rw [hpe]
        simp only [hend, hsd, addTd_sentinel (freqDelta info) (freqDelta_ge info)]
      | none =>
        have hend : endDtOf now info = none := by
          unfold endDtOf
          rw [hpe, hsd]
          exact addTd_sentinel 86400 (by omega)
        rw [hend]
    · have hes : endStrOf info = "9999-12-31 09:00:00" := by
        unfold endStrOf
        rw [hme]
        rfl
      have hend : endDtOf now info = some (dtToSecs ⟨9999, 12, 31, 9, 0, 0⟩) := by
        unfold endDtOf
        rw [hes, hsentinel]
      rw [hsb]
      unfold shiftBody
      simp only [hend, addTd_sentinel (freqDelta info) (freqDelta_ge info)]
      cases addTd (startDtOf now info) (freqDelta info) <;> rfl
  · intro s m sid hs hmem hnone
    have hcrash := computeShifts_crash_of_mem now m sid info hmem hnone
    unfold update_slot_times_multi
    rw [hs]
    rcases hcs : computeShifts now m with ⟨m', a, cr⟩
    have hcr : cr = true := by
      rw [hcs] at hcrash
      exact hcrash
    subst hcr
    simp only [hcs]
  · intro sstr estr u ns nu hms hpsn hme hpeu hA hB
    have hss : startStrOf info = sstr := by
      unfold startStrOf
      rw [hms]
      rfl
    have hsd : startDtOf now info = replaceHour9 now := by
      unfold startDtOf
      rw [hss, hpsn]
    have hend : endDtOf now info = some u := by
      unfold endDtOf
      unfold endStrOf
      rw [hme]
      show (match parse_ist estr with
            | some t => some t
            | none => addTd (startDtOf now info) 86400) = some u
      rw [hpeu]
    rw [hsb]
    unfold shiftBody
    simp only [hend, hsd, hA, hB]
  · intro sstr estr t fe ns nu hms hpst hme hpen hF hA hB
    have hss : startStrOf info = sstr := by
      unfold startStrOf
      rw [hms]
      rfl
    have hsd : startDtOf now info = t := by
      unfold startDtOf
      rw [hss, hpst]
    have hend : endDtOf now info = some fe := by
      unfold endDtOf
      unfold endStrOf
      rw [hme]
      show (match parse_ist estr with
            | some t => some t
            | none => addTd (startDtOf now info) 86400) = some fe
      rw [hpen, hsd]
      exact hF
    rw [hsb]
    unfold shiftBody
    simp only [hend, hsd, hA, hB]

/-- C6 amended witness: a due slot with unparseable slot_start shifts
from the today-09:00 fallback; the 3day frequency is honoured. -/
theorem shifter_fallback_behaviour_witness :
    shiftSlot (dtToSecs ⟨2024, 1, 2, 9, 30, 0⟩)
        ⟨true, some "garbage", some "2024-01-02 09:00:00",
         some "2024-01-01 08:00:00", some "3day"⟩
      = some (⟨true, some "2024-01-05 09:00:00", some "2024-01-05 09:00:00",
              some "2024-01-02 09:30:00", some "3day"⟩, true) :=
  (shifter_fallback_behaviour (dtToSecs ⟨2024, 1, 2, 9, 30, 0⟩)
      (dtToSecs ⟨2024, 1, 2, 9, 30, 0⟩) (dtToSecs ⟨2024, 1, 2, 9, 30, 0⟩) true true
      ⟨true, some "garbage", some "2024-01-02 09:00:00",
       some "2024-01-01 08:00:00", some "3day"⟩
      (dtToSecs ⟨2024, 1, 1, 8, 0, 0⟩)
      rfl (by decide) (by decide)).2.2.1
    "garbage" "2024-01-02 09:00:00"
    (dtToSecs ⟨2024, 1, 2, 9, 0, 0⟩) (dtToSecs ⟨2024, 1, 5, 9, 0, 0⟩)
    (dtToSecs ⟨2024, 1, 5, 9, 0, 0⟩)
    rfl (by decide) rfl (by decide) (by decide) (by decide)

/-- C8: in a completed run with a slot map present, the map is written
back exactly when some slot was due (equivalently, shifted); the Locker
runs exactly when that write was attempted and succeeded; on write
failure the store stays at the post-reconcile state with no lock pass;
with no due slot there is no write and no lock pass and the slot map is
unchanged. -/
theorem shifter_write_and_lock_protocol (now nowRec nowLock : Int)
    (recW pOk : Bool) (s : Store) (m : List (String × SlotInfo)) (r : RunResult)
    (hs : s.slots = some m)
    (hnc : (computeShifts now m).2.2 = false)
    (hr : r = update_slot_times_multi now nowRec nowLock recW pOk s) :
    (r.patchTried = true ↔ ∃ p ∈ m, dueB now p.2 = true)
      ∧ (∀ info : SlotInfo, dueB now info = true ↔
          info.enabled = true
            ∧ ∃ L, parse_ist (luStrOf info) = some L ∧ 86400 ≤ now - L)
      ∧ (r.lockRan = true ↔ r.patchTried = true ∧ pOk = true)
      ∧ (pOk = false → r.store = reset_account_claims nowRec recW s ∧ r.lockRan = false)
      ∧ ((∀ p ∈ m, dueB now p.2 = false) →
          r.patchTried = false ∧ r.lockRan = false ∧ r.store.slots = s.slots) := by
  obtain ⟨hceq, hsome⟩ := computeShifts_spec now m hnc
  have hanydue : (m.any fun p => (shiftSlotD now p.2).2)
      = m.any (fun p => dueB now p.2) := by
    apply any_congr_mem
    intro p hp
    rcases Option.isSome_iff_exists.mp (hsome p hp) with ⟨pr, hpr⟩
    have h1 : (shiftSlotD now p.2).2 = pr.2 := by simp [shiftSlotD, hpr]
    rw [h1]
    exact shiftSlot_flag now p.2 pr.1 pr.2 (by rw [hpr])
  subst hr
  unfold update_slot_times_multi
  rw [hs]
  simp only [hceq, hanydue]
  cases hany : m.any (fun p => dueB now p.2) with
  | true =>
    cases pOk with
    | true =>
      rcases hlb : lock_by_slot nowLock
          { reset_account_claims nowRec recW s
              with slots := some (m.map (fun p => (p.1, (shiftSlotD now p.2).1))) }
          with ⟨s3, n, lc⟩
      rw [if_pos (show true = true from rfl)]
      rw [if_pos (show true = true from rfl)]
      simp only [hlb]
      refine ⟨⟨fun _ => List.any_eq_true.mp hany, fun _ => by trivial⟩,
              fun info => dueB_iff now info, by simp, ?_, ?_⟩
      · intro hcon
        cases hcon
      · intro hall
        rcases List.any_eq_true.mp hany with ⟨p, hp, hdue⟩
        rw [hall p hp] at hdue
        cases hdue
    | false =>
      rw [if_pos (show true = true from rfl)]
      rw [if_neg (fun h => Bool.noConfusion h)]
      refine ⟨⟨fun _ => List.any_eq_true.mp hany, fun _ => by trivial⟩,
              fun info => dueB_iff now info, by simp, fun _ => ⟨rfl, rfl⟩, ?_⟩
      intro hall
      rcases List.any_eq_true.mp hany with ⟨p, hp, hdue⟩
      rw [hall p hp] at hdue
      cases hdue
  | false =>
    rw [if_neg (fun h => Bool.noConfusion h)]
    refine ⟨⟨fun h => Bool.noConfusion h, ?_⟩,
            fun info => dueB_iff now info, by simp, fun _ => ⟨rfl, rfl⟩, ?_⟩
    · rintro ⟨p, hp, hdue⟩
      have hT : m.any (fun p => dueB now p.2) = true :=
        List.any_eq_true.mpr ⟨p, hp, hdue⟩
      rw [hany] at hT
      cases hT
    · intro _
      refine ⟨rfl, rfl, ?_⟩
      show (reset_account_claims nowRec recW s).slots = some m
      rw [reset_account_claims_slots]
      exact hs

/-- C8 witness: with one due slot and a successful write, the map is
patched and the lock pass runs. -/
theorem shifter_write_and_lock_protocol_witness :
    (update_slot_times_multi (dtToSecs ⟨2024, 1, 2, 9, 30, 0⟩)
        (dtToSecs ⟨2024, 1, 2, 9, 30, 0⟩) (dtToSecs ⟨2024, 1, 2, 9, 30, 0⟩) true true
        ⟨some [("slot_1",
            ⟨true, some "2024-01-01 09:00:00", some "2024-01-02 09:00:00",
             some "2024-01-01 08:00:00", none⟩)], [], []⟩).patchTried = true :=
  ((shifter_write_and_lock_protocol (dtToSecs ⟨2024, 1, 2, 9, 30, 0⟩)
      (dtToSecs ⟨2024, 1, 2, 9, 30, 0⟩) (dtToSecs ⟨2024, 1, 2, 9, 30, 0⟩) true true
      ⟨some [("slot_1",
          ⟨true, some "2024-01-01 09:00:00", some "2024-01-02 09:00:00",
           some "2024-01-01 08:00:00", none⟩)], [], []⟩
      [("slot_1",
        ⟨true, some "2024-01-01 09:00:00", some "2024-01-02 09:00:00",
         some "2024-01-01 08:00:00", none⟩)]
      (update_slot_times_multi (dtToSecs ⟨2024, 1, 2, 9, 30, 0⟩)
        (dtToSecs ⟨2024, 1, 2, 9, 30, 0⟩) (dtToSecs ⟨2024, 1, 2, 9, 30, 0⟩) true true
        ⟨some [("slot_1",
            ⟨true, some "2024-01-01 09:00:00", some "2024-01-02 09:00:00",
             some "2024-01-01 08:00:00", none⟩)], [], []⟩)
      rfl (by decide) rfl).1).mpr
    ⟨("slot_1",
      ⟨true, some "2024-01-01 09:00:00", some "2024-01-02 09:00:00",
       some "2024-01-01 08:00:00", none⟩), by decide, by decide⟩

end SlotService
